import Mathlib

/-!
# A type-keyed registry (`generics/container.go`)

Shallow embedding of the Go package `set`: a container owning a mutex and a
`map[string]any`, with the generic operations `Add`, `AddAs`, `Get`, `GetAs`,
`TryGet`, `TryGetAs`, `Remove`, the method `Len`, and the key derivation `name`.

Modelling choices.

* Go types are the terms of `Ty`; a defined (named) type refers by package path
  and name to its declaration in a `TypeEnv`, so recursive declarations such as
  `type P *P` are expressible.  A defined type declared inside a function is a
  `localNamed`, which also carries a number for its declaration: two such types
  can have the same package path and name and still be different types.  The part of package `reflect` that `name` uses
  (`Kind`, `Elem`, `PkgPath`, `Name`) is defined on `Ty`.
* An `any` is `Option Dyn`: `none` is the nil interface, `some ⟨D, d⟩` holds data
  `d` of dynamic type `D`.  Data are natural numbers, `0` being the zero value.
* A Go value seen at a static type is a `Value`: bare data for a non-interface
  type, an interface value for an interface type.
* The map is `Option (AList ..)`, `none` being the nil map.
* The mutex is a Boolean flag.  An operation yields `none` when it does not
  return (the mutex is already held, or the pointer-stripping loop of `name`
  did not finish within the given fuel), and otherwise `some (c, r)` where `c`
  is the container afterwards and `r` is `.ret v` for a normal return and
  `.panic msg` for a panic with message `msg`.
* `specGetByKey` is retrieval as the specification words it, for comparison with
  `Get` and `GetAs`.  The `...Traced` copies of the operations also return the
  list of their accesses to the map, each with the state of the mutex at that
  moment.  `Reachable` collects the containers obtained from `New()` by calls
  that ended.
-/

namespace GenericsSet

/-! ## Types and the fragment of `reflect` used by `name` -/

mutual
/-- Go types. A `named` type is a defined type declared at package level, which
package path and name identify; a `localNamed` type is a defined type declared
inside a function, identified by package path, name and its declaration. -/
inductive Ty where
  | basic (name : String)
  | named (pkg name : String)
  | localNamed (pkg name : String) (decl : Nat)
  | ptr (elem : Ty)
  | slice (elem : Ty)
  | array (len : Nat) (elem : Ty)
  | map (key elem : Ty)
  | chan (elem : Ty)
  | func (params results : Tys)
  | struct (fields : Fields)
  | iface (methods : List String)
/-- Lists of types (parameter and result lists). -/
inductive Tys where
  | nil
  | cons (head : Ty) (tail : Tys)
/-- Field lists of struct types. -/
inductive Fields where
  | nil
  | cons (name : String) (ty : Ty) (tail : Fields)
end

deriving instance DecidableEq for Ty

/-- The kinds `reflect.Kind` distinguishes (all predeclared non-interface types
are lumped into `Basic`). -/
inductive Kind where
  | Invalid | Basic | Ptr | Slice | Array | Map | Chan | Func | Struct | Interface
  deriving DecidableEq, Repr

/-- Type declarations of a program: the type literal each defined type was
declared with (at package level, or inside a function as declaration number
`decl`), and the method set of every type (methods are identified by a string
giving name and signature). -/
structure TypeEnv where
  underlying : String → String → Ty
  localUnderlying : String → String → Nat → Ty
  methods : Ty → List String

/-- Kind of a type literal. -/
def Ty.litKind : Ty → Kind
  | .basic _ => .Basic
  | .named _ _ => .Invalid
  | .localNamed _ _ _ => .Invalid
  | .ptr _ => .Ptr
  | .slice _ => .Slice
  | .array _ _ => .Array
  | .map _ _ => .Map
  | .chan _ => .Chan
  | .func _ _ => .Func
  | .struct _ => .Struct
  | .iface _ => .Interface

/-- The literal that decides kind and element type: the declaration of a defined
type, the type itself otherwise. -/
def Ty.literal (env : TypeEnv) : Ty → Ty
  | .named p n => env.underlying p n
  | .localNamed p n d => env.localUnderlying p n d
  | t => t

/-- `reflect.Type.Kind`. -/
def Ty.Kind (env : TypeEnv) (t : Ty) : Kind := (t.literal env).litKind

/-- `reflect.Type.Elem` (reflect panics on a type without element type; `name`
calls it on pointer kinds only, and the model returns the type itself there). -/
def Ty.Elem (env : TypeEnv) (t : Ty) : Ty :=
  match t.literal env with
  | .ptr e => e
  | .slice e => e
  | .array _ e => e
  | .map _ e => e
  | .chan e => e
  | _ => t

/-- `reflect.Type.PkgPath`: the package path of a defined type, empty for
predeclared and for unnamed types. -/
def Ty.PkgPath : Ty → String
  | .named p _ => p
  | .localNamed p _ _ => p
  | _ => ""

/-- `reflect.Type.Name`: the name of a defined or predeclared type, empty for
unnamed types. -/
def Ty.Name : Ty → String
  | .named _ n => n
  | .localNamed _ n _ => n
  | .basic n => n
  | _ => ""

/-- The loop `for i.Kind() == reflect.Ptr { i = i.Elem() }` of `name`, run for at
most `fuel` tests of the loop condition. -/
def stripPtr (env : TypeEnv) : Nat → Ty → Option Ty
  | 0, _ => none
  | fuel + 1, i => if i.Kind env = Kind.Ptr then stripPtr env fuel (i.Elem env) else some i

/-- `name[T]()`: starts from `reflect.TypeOf(&t)`, i.e. `*T`, strips pointers and
returns `i.PkgPath() + i.Name()`. -/
def name (env : TypeEnv) (fuel : Nat) (T : Ty) : Option String :=
  match stripPtr env fuel (Ty.ptr T) with
  | none => none
  | some i => some (i.PkgPath ++ i.Name)

/-! ## Values, conversion to `any`, type assertion -/

/-- A non-nil interface value: dynamic type and data. -/
structure Dyn where
  ty : Ty
  data : Nat
  deriving DecidableEq

/-- Values of type `any`; `none` is nil. -/
abbrev Any := Option Dyn

/-- A value as seen at a static type. -/
inductive Value where
  | data (d : Nat)
  | iface (i : Any)
  deriving DecidableEq

/-- The nil interface value. -/
def Value.isNilIface : Value → Bool
  | .iface none => true
  | _ => false

/-- Methods required by an interface type. -/
def Ty.ifaceMethods (env : TypeEnv) (t : Ty) : Option (List String) :=
  match t.literal env with
  | .iface ms => some ms
  | _ => none

/-- Whether type `D` implements the interface type `T`. -/
def implements (env : TypeEnv) (D T : Ty) : Bool :=
  match T.ifaceMethods env with
  | some ms => ms.all fun meth => (env.methods D).contains meth
  | none => false

/-- Whether `v` is a value of static type `T`: data for a non-interface type; for
an interface type nil or a value whose dynamic type is a non-interface type
implementing `T`. -/
def hasType (env : TypeEnv) (T : Ty) : Value → Bool
  | .data _ => decide (T.Kind env ≠ Kind.Interface)
  | .iface none => decide (T.Kind env = Kind.Interface)
  | .iface (some d) =>
      decide (T.Kind env = Kind.Interface) && decide (d.ty.Kind env ≠ Kind.Interface)
        && implements env d.ty T

/-- Conversion of a value of static type `T` to `any`, as in `m[k] = e`. -/
def toAny (T : Ty) : Value → Any
  | .data d => some ⟨T, d⟩
  | .iface i => i

/-- Zero value of `T`. -/
def zeroValue (env : TypeEnv) (T : Ty) : Value :=
  if T.Kind env = Kind.Interface then .iface none else .data 0

/-- The comma-ok type assertion `x.(T)` on `x : any`. -/
def typeAssert (env : TypeEnv) (T : Ty) (x : Any) : Value × Bool :=
  match x with
  | none => (zeroValue env T, false)
  | some d =>
    if T.Kind env = Kind.Interface then
      if implements env d.ty T then (.iface (some d), true) else (zeroValue env T, false)
    else
      if d.ty = T then (.data d.data, true) else (zeroValue env T, false)

/-- How a call ends when it ends: a normal return or a panic with its message. -/
inductive Outcome (α : Type) where
  | ret (a : α)
  | panic (msg : String)
  deriving DecidableEq

/-! ## The map -/

/-- A `map[string]any`; `none` is the nil map. -/
abbrev GoMap := Option (AList fun _ : String => Any)

instance : DecidableEq (AList fun _ : String => Any) := fun a b =>
  decidable_of_iff (a.entries = b.entries) ⟨AList.ext, congrArg AList.entries⟩

/-- Reading `m[k]`: the zero value (nil) when the key is absent. -/
def GoMap.index (m : GoMap) (k : String) : Any :=
  match m with
  | none => none
  | some a =>
    match a.lookup k with
    | none => none
    | some x => x

/-- Whether `k` has an entry. -/
def GoMap.has (m : GoMap) (k : String) : Bool :=
  match m with
  | none => false
  | some a => (a.lookup k).isSome

/-- The assignment `m[k] = x`; panics on a nil map. -/
def GoMap.assign (m : GoMap) (k : String) (x : Any) : Outcome GoMap :=
  match m with
  | none => .panic "assignment to entry in nil map"
  | some a => .ret (some (a.insert k x))

/-- The builtin `delete(m, k)`. -/
def GoMap.delete (m : GoMap) (k : String) : GoMap :=
  match m with
  | none => none
  | some a => some (a.erase k)

/-- The builtin `len(m)`. -/
def GoMap.len (m : GoMap) : Nat :=
  match m with
  | none => 0
  | some a => a.entries.length

/-! ## The container and its operations -/

/-- The struct `container`; `mu` is `true` while the mutex is held. -/
structure container where
  mu : Bool
  m : GoMap
  deriving DecidableEq

/-- `New`. -/
def New : container := { mu := false, m := some ∅ }

/-- `(*container).Len`. -/
def container.Len (c : container) : Nat := c.m.len

/-- `(*container).lock`: does not return while the mutex is held. -/
def container.lock (c : container) : Option container :=
  if c.mu then none else some { c with mu := true }

/-- `(*container).unlock`. -/
def container.unlock (c : container) : container := { c with mu := false }

/-- A container at rest: mutex free and map made. -/
def container.ready (c : container) : Prop := c.mu = false ∧ c.m ≠ none

instance (c : container) : Decidable c.ready := by unfold container.ready; infer_instance

/-- `Add[T](c, e)`. -/
def Add (env : TypeEnv) (fuel : Nat) (T : Ty) (c : container) (e : Value) :
    Option (container × Outcome Unit) :=
  match c.lock with
  | none => none
  | some c1 =>
    match name env fuel T with
    | none => none
    | some k =>
      match c1.m.assign k (toAny T e) with
      | .panic msg => some (c1.unlock, .panic msg)
      | .ret m1 => some (({ c1 with m := m1 } : container).unlock, .ret ())

/-- `AddAs[T, O](c, e)`. -/
def AddAs (env : TypeEnv) (fuel : Nat) (T O : Ty) (c : container) (e : Value) :
    Option (container × Outcome Unit) :=
  match c.lock with
  | none => none
  | some c1 =>
    match name env fuel O with
    | none => none
    | some k =>
      match c1.m.assign k (toAny T e) with
      | .panic msg => some (c1.unlock, .panic msg)
      | .ret m1 => some (({ c1 with m := m1 } : container).unlock, .ret ())

/-- `GetAs[T, O](c)`. -/
def GetAs (env : TypeEnv) (fuel : Nat) (T O : Ty) (c : container) :
    Option (container × Outcome Value) :=
  match c.lock with
  | none => none
  | some c1 =>
    match name env fuel O with
    | none => none
    | some n =>
      match typeAssert env T (c1.m.index n) with
      | (_, false) => some (c1.unlock, .panic ("item not found of type [" ++ n ++ "]"))
      | (t, true) => some (c1.unlock, .ret t)

/-- `Get[T](c)`. -/
def Get (env : TypeEnv) (fuel : Nat) (T : Ty) (c : container) :
    Option (container × Outcome Value) :=
  match c.lock with
  | none => none
  | some c1 =>
    match name env fuel T with
    | none => none
    | some n =>
      match typeAssert env T (c1.m.index n) with
      | (_, false) => some (c1.unlock, .panic ("item not found of type [" ++ n ++ "]"))
      | (t, true) => some (c1.unlock, .ret t)

/-- `TryGet[T](c)`. -/
def TryGet (env : TypeEnv) (fuel : Nat) (T : Ty) (c : container) :
    Option (container × Outcome (Value × Bool)) :=
  match c.lock with
  | none => none
  | some c1 =>
    match name env fuel T with
    | none => none
    | some k => some (c1.unlock, .ret (typeAssert env T (c1.m.index k)))

/-- `TryGetAs[T, O](c)`. -/
def TryGetAs (env : TypeEnv) (fuel : Nat) (T O : Ty) (c : container) :
    Option (container × Outcome (Value × Bool)) :=
  match c.lock with
  | none => none
  | some c1 =>
    match name env fuel O with
    | none => none
    | some k => some (c1.unlock, .ret (typeAssert env T (c1.m.index k)))

/-- `Remove[T](c)`. -/
def Remove (env : TypeEnv) (fuel : Nat) (T : Ty) (c : container) :
    Option (container × Outcome Unit) :=
  match c.lock with
  | none => none
  | some c1 =>
    match name env fuel T with
    | none => none
    | some k => some (({ c1 with m := c1.m.delete k } : container).unlock, .ret ())

/-! ## A sample program for concrete evaluation -/

/-- Package path of the test file. -/
def testPkg : String := "github.com/kiamev/generics-set/generics"

/-- The interface `_tester` of the test file. -/
def tester : Ty := .named testPkg "_tester"

/-- The struct `_testerImpl` of the test file. -/
def testerImpl : Ty := .named testPkg "_testerImpl"

/-- Declarations of the test file (`_tester interface{ Foo() }`,
`_testerImpl struct{ _tester }`) together with two further declarations:
`type P *P` in package `main` and `type bc struct{}` in package `a`,
`type c struct{}` in package `ab`; every declaration inside a function is
`type T int`. -/
def testEnv : TypeEnv where
  underlying := fun p n =>
    if p = testPkg ∧ n = "_tester" then .iface ["Foo()"]
    else if p = testPkg ∧ n = "_testerImpl" then .struct (.cons "_tester" tester .nil)
    else if p = "main" ∧ n = "P" then .ptr (.named "main" "P")
    else .struct .nil
  localUnderlying := fun _ _ _ => .basic "int"
  methods := fun t =>
    if t = testerImpl ∨ t = .ptr testerImpl ∨ t = tester then ["Foo()"] else []

/-- A value of static type `_tester` whose dynamic type is `_testerImpl`. -/
def implValue : Value := .iface (some ⟨testerImpl, 7⟩)

/-- The container after `Add[_tester](New(), implValue)`. -/
def withTester : container :=
  ⟨false, some (AList.singleton (testPkg ++ "_tester") (some ⟨testerImpl, 7⟩))⟩

/-- The container after `Add[_tester](New(), nil)`. -/
def withNil : container := ⟨false, some (AList.singleton (testPkg ++ "_tester") none)⟩

/-- The defined type `P` of package `main`, declared `type P *P`. -/
def selfPtr : Ty := .named "main" "P"

/-- The container after `Add[[]int](New(), xs)`, `xs` being the data `5`. -/
def withIntSlice : container :=
  ⟨false, some (AList.singleton "" (some ⟨.slice (.basic "int"), 5⟩))⟩

/-! ## Retrieval as the specification words it -/

/-- Retrieval by a given key as section 4.1.4 of the specification describes
`Get`: under the lock, look up the entry under the key and coerce the stored value
to `T`; fail if the key is absent or if the stored value cannot be coerced to
`T`, with a message that includes the key; otherwise return the value. The key
is `none` when its derivation does not return. -/
def specGetByKey (env : TypeEnv) (T : Ty) (key : Option String) (c : container) :
    Option (container × Outcome Value) :=
  if c.mu then none
  else
    match key with
    | none => none
    | some k =>
      if c.m.has k = false ∨ (typeAssert env T (c.m.index k)).2 = false then
        some (c, .panic ("item not found of type [" ++ k ++ "]"))
      else some (c, .ret (typeAssert env T (c.m.index k)).1)

/-! ## The operations with a log of their accesses to the map -/

/-- Ways of touching the map. -/
inductive MapOp where
  | read | write | delete | len
  deriving DecidableEq

/-- One access to the map and whether the mutex was held when it happened. -/
structure Access where
  op : MapOp
  held : Bool
  deriving DecidableEq

/-- `Add[T](c, e)`, logging the map accesses. -/
def AddTraced (env : TypeEnv) (fuel : Nat) (T : Ty) (c : container) (e : Value) :
    Option (container × Outcome Unit) × List Access :=
  match c.lock with
  | none => (none, [])
  | some c1 =>
    match name env fuel T with
    | none => (none, [])
    | some k =>
      match c1.m.assign k (toAny T e) with
      | .panic msg => (some (c1.unlock, .panic msg), [⟨.write, c1.mu⟩])
      | .ret m1 =>
        (some (({ c1 with m := m1 } : container).unlock, .ret ()), [⟨.write, c1.mu⟩])

/-- `AddAs[T, O](c, e)`, logging the map accesses. -/
def AddAsTraced (env : TypeEnv) (fuel : Nat) (T O : Ty) (c : container) (e : Value) :
    Option (container × Outcome Unit) × List Access :=
  match c.lock with
  | none => (none, [])
  | some c1 =>
    match name env fuel O with
    | none => (none, [])
    | some k =>
      match c1.m.assign k (toAny T e) with
      | .panic msg => (some (c1.unlock, .panic msg), [⟨.write, c1.mu⟩])
      | .ret m1 =>
        (some (({ c1 with m := m1 } : container).unlock, .ret ()), [⟨.write, c1.mu⟩])

/-- `(*container).Len`, logging the map access. -/
def container.LenTraced (c : container) : Nat × List Access :=
  (c.m.len, [⟨.len, c.mu⟩])

/-- `GetAs[T, O](c)`, logging the map accesses. -/
def GetAsTraced (env : TypeEnv) (fuel : Nat) (T O : Ty) (c : container) :
    Option (container × Outcome Value) × List Access :=
  match c.lock with
  | none => (none, [])
  | some c1 =>
    match name env fuel O with
    | none => (none, [])
    | some n =>
      match typeAssert env T (c1.m.index n) with
      | (_, false) =>
        (some (c1.unlock, .panic ("item not found of type [" ++ n ++ "]")), [⟨.read, c1.mu⟩])
      | (t, true) => (some (c1.unlock, .ret t), [⟨.read, c1.mu⟩])

/-- `Get[T](c)`, logging the map accesses. -/
def GetTraced (env : TypeEnv) (fuel : Nat) (T : Ty) (c : container) :
    Option (container × Outcome Value) × List Access :=
  match c.lock with
  | none => (none, [])
  | some c1 =>
    match name env fuel T with
    | none => (none, [])
    | some n =>
      match typeAssert env T (c1.m.index n) with
      | (_, false) =>
        (some (c1.unlock, .panic ("item not found of type [" ++ n ++ "]")), [⟨.read, c1.mu⟩])
      | (t, true) => (some (c1.unlock, .ret t), [⟨.read, c1.mu⟩])

/-- `TryGet[T](c)`, logging the map accesses. -/
def TryGetTraced (env : TypeEnv) (fuel : Nat) (T : Ty) (c : container) :
    Option (container × Outcome (Value × Bool)) × List Access :=
  match c.lock with
  | none => (none, [])
  | some c1 =>
    match name env fuel T with
    | none => (none, [])
    | some k =>
      (some (c1.unlock, .ret (typeAssert env T (c1.m.index k))), [⟨.read, c1.mu⟩])

/-- `TryGetAs[T, O](c)`, logging the map accesses. -/
def TryGetAsTraced (env : TypeEnv) (fuel : Nat) (T O : Ty) (c : container) :
    Option (container × Outcome (Value × Bool)) × List Access :=
  match c.lock with
  | none => (none, [])
  | some c1 =>
    match name env fuel O with
    | none => (none, [])
    | some k =>
      (some (c1.unlock, .ret (typeAssert env T (c1.m.index k))), [⟨.read, c1.mu⟩])

/-- `Remove[T](c)`, logging the map accesses. -/
def RemoveTraced (env : TypeEnv) (fuel : Nat) (T : Ty) (c : container) :
    Option (container × Outcome Unit) × List Access :=
  match c.lock with
  | none => (none, [])
  | some c1 =>
    match name env fuel T with
    | none => (none, [])
    | some k =>
      (some (({ c1 with m := c1.m.delete k } : container).unlock, .ret ()),
        [⟨.delete, c1.mu⟩])

/-! ## Containers reachable from `New()` -/

/-- One call of an operation of the package on `c` that ended (by return or by
panic), leaving the container `c1`. -/
inductive Step (env : TypeEnv) (c c1 : container) : Prop where
  | add (fuel : Nat) (T : Ty) (e : Value) (r : Outcome Unit)
      (h : Add env fuel T c e = some (c1, r))
  | addAs (fuel : Nat) (T O : Ty) (e : Value) (r : Outcome Unit)
      (h : AddAs env fuel T O c e = some (c1, r))
  | get (fuel : Nat) (T : Ty) (r : Outcome Value) (h : Get env fuel T c = some (c1, r))
  | getAs (fuel : Nat) (T O : Ty) (r : Outcome Value)
      (h : GetAs env fuel T O c = some (c1, r))
  | tryGet (fuel : Nat) (T : Ty) (r : Outcome (Value × Bool))
      (h : TryGet env fuel T c = some (c1, r))
  | tryGetAs (fuel : Nat) (T O : Ty) (r : Outcome (Value × Bool))
      (h : TryGetAs env fuel T O c = some (c1, r))
  | remove (fuel : Nat) (T : Ty) (r : Outcome Unit)
      (h : Remove env fuel T c = some (c1, r))

/-- Containers obtained from `New()` by a sequence of calls. -/
inductive Reachable (env : TypeEnv) : container → Prop where
  | new : Reachable env New
  | step {c c1 : container} (hc : Reachable env c) (hs : Step env c c1) : Reachable env c1

/-- Types that are neither predeclared nor defined: type literals. -/
def Ty.unnamed : Ty → Bool
  | .basic _ => false
  | .named _ _ => false
  | .localNamed _ _ _ => false
  | _ => true

/-! ## Lemmas on the map -/

theorem len_some (a : AList fun _ : String => Any) : GoMap.len (some a) = a.keys.length := by
  simp [GoMap.len, AList.keys, List.keys]

theorem len_insert_of_mem {a : AList fun _ : String => Any} {k : String} (x : Any)
    (h : k ∈ a) : GoMap.len (some (a.insert k x)) = GoMap.len (some a) := by
  rw [len_some, len_some, AList.keys_insert, List.length_cons,
    List.length_erase_of_mem (AList.mem_keys.mp h)]
  have : 0 < a.keys.length := List.length_pos_of_mem (AList.mem_keys.mp h)
  omega

theorem len_insert_of_not_mem {a : AList fun _ : String => Any} {k : String} (x : Any)
    (h : k ∉ a) : GoMap.len (some (a.insert k x)) = GoMap.len (some a) + 1 := by
  rw [len_some, len_some, AList.keys_insert, List.length_cons,
    List.erase_of_not_mem (fun hk => h (AList.mem_keys.mpr hk))]

theorem len_insert_pos (a : AList fun _ : String => Any) (k : String) (x : Any) :
    1 ≤ GoMap.len (some (a.insert k x)) := by
  rw [len_some, AList.keys_insert, List.length_cons]
  omega

theorem erase_of_not_mem {a : AList fun _ : String => Any} {k : String} (h : k ∉ a) :
    a.erase k = a :=
  AList.ext (List.kerase_of_not_mem_keys (fun hk => h (AList.mem_keys.mpr hk)))

theorem erase_idem (a : AList fun _ : String => Any) (k : String) :
    (a.erase k).erase k = a.erase k :=
  erase_of_not_mem (fun h => (AList.mem_erase.mp h).1 rfl)

theorem index_insert (a : AList fun _ : String => Any) (k : String) (x : Any) :
    GoMap.index (some (a.insert k x)) k = x := by
  simp [GoMap.index, AList.lookup_insert]

theorem index_insert_ne (a : AList fun _ : String => Any) {k k1 : String} (x : Any)
    (h : k ≠ k1) : GoMap.index (some (a.insert k1 x)) k = GoMap.index (some a) k := by
  simp [GoMap.index, AList.lookup_insert_ne h]

theorem index_erase (a : AList fun _ : String => Any) (k : String) :
    GoMap.index (some (a.erase k)) k = none := by
  simp [GoMap.index, AList.lookup_erase]

theorem index_of_has_false {m : GoMap} {k : String} (h : m.has k = false) :
    m.index k = none := by
  cases m with
  | none => rfl
  | some a =>
    simp only [GoMap.has] at h
    cases hl : a.lookup k with
    | none => simp [GoMap.index, hl]
    | some x => simp [hl] at h

theorem has_iff_mem (a : AList fun _ : String => Any) (k : String) :
    GoMap.has (some a) k = true ↔ k ∈ a := by
  simp [GoMap.has, AList.lookup_isSome]

/-! ## Lemmas on type assertion -/

theorem typeAssert_none (env : TypeEnv) (T : Ty) :
    typeAssert env T none = (zeroValue env T, false) := rfl

theorem typeAssert_toAny {env : TypeEnv} {T : Ty} {v : Value}
    (hv : hasType env T v = true) (hn : v.isNilIface = false) :
    typeAssert env T (toAny T v) = (v, true) := by
  cases v with
  | data d =>
    have hk : T.Kind env ≠ Kind.Interface := by simpa [hasType] using hv
    simp [toAny, typeAssert, hk]
  | iface i =>
    cases i with
    | none => simp [Value.isNilIface] at hn
    | some d =>
      simp only [hasType, Bool.and_eq_true, decide_eq_true_eq] at hv
      simp [toAny, typeAssert, hv.1.1, hv.2]

theorem typeAssert_fst_of_false {env : TypeEnv} {T : Ty} {x : Any}
    (h : (typeAssert env T x).2 = false) : typeAssert env T x = (zeroValue env T, false) := by
  unfold typeAssert at h ⊢
  cases x with
  | none => rfl
  | some d =>
    by_cases hk : T.Kind env = Kind.Interface
    · by_cases hi : implements env d.ty T = true
      · simp [hk, hi] at h
      · simp [hk, hi]
    · by_cases hd : d.ty = T
      · simp [hk, hd] at h
      · simp [hk, hd]

theorem toAny_typeAssert {env : TypeEnv} {T : Ty} {x : Any}
    (h : (typeAssert env T x).2 = true) : toAny T (typeAssert env T x).1 = x := by
  unfold typeAssert at h ⊢
  cases x with
  | none => simp at h
  | some d =>
    by_cases hk : T.Kind env = Kind.Interface
    · by_cases hi : implements env d.ty T = true
      · simp [hk, hi, toAny]
      · simp [hk, hi] at h
    · by_cases hd : d.ty = T
      · cases d
        simp only at hd
        simp [hk, hd, toAny]
      · simp [hk, hd] at h

/-! ## Lemmas on key derivation -/

theorem stripPtr_mono {env : TypeEnv} {fuel : Nat} {i s : Ty} (extra : Nat)
    (h : stripPtr env fuel i = some s) : stripPtr env (fuel + extra) i = some s := by
  induction fuel generalizing i with
  | zero => simp [stripPtr] at h
  | succ n ih =>
    rw [Nat.add_right_comm]
    simp only [stripPtr] at h ⊢
    split at h
    · rename_i hp
      simp only [hp, if_true]
      exact ih h
    · rename_i hp
      simp only [hp, if_false]
      exact h

theorem name_mono {env : TypeEnv} {fuel : Nat} {T : Ty} {k : String} (extra : Nat)
    (h : name env fuel T = some k) : name env (fuel + extra) T = some k := by
  unfold name at h ⊢
  cases hs : stripPtr env fuel (Ty.ptr T) with
  | none => simp [hs] at h
  | some s =>
    rw [stripPtr_mono extra hs]
    simpa [hs] using h

theorem name_ptr (env : TypeEnv) (fuel : Nat) (T : Ty) :
    name env (fuel + 1) (Ty.ptr T) = name env fuel T := by
  simp [name, stripPtr, Ty.Kind, Ty.literal, Ty.litKind, Ty.Elem]

/-- The pointer-stripping loop never leaves the type declared `type P *P`. -/
theorem stripPtr_selfPtr (fuel : Nat) : stripPtr testEnv fuel selfPtr = none := by
  induction fuel with
  | zero => rfl
  | succ n ih =>
    have hk : selfPtr.Kind testEnv = Kind.Ptr := by decide
    have he : selfPtr.Elem testEnv = selfPtr := by decide
    simp only [stripPtr, hk, if_true, he]
    exact ih

/-- Key derivation for the type declared `type P *P` returns for no fuel. -/
theorem name_selfPtr (fuel : Nat) : name testEnv fuel selfPtr = none := by
  cases fuel with
  | zero => rfl
  | succ n =>
    have h : stripPtr testEnv (n + 1) (Ty.ptr selfPtr) = stripPtr testEnv n selfPtr := by
      simp [stripPtr, Ty.Kind, Ty.literal, Ty.litKind, Ty.Elem]
    simp only [name, h, stripPtr_selfPtr]

/-! ## The operations on a container whose mutex is free -/

theorem unlock_lock {c : container} (h : c.mu = false) :
    c.lock = some { c with mu := true } ∧ ({ c with mu := true } : container).unlock = c := by
  cases c
  simp only at h
  subst h
  simp [container.lock, container.unlock]

theorem Add_eq {env : TypeEnv} {fuel : Nat} {T : Ty} {c : container} {k : String}
    {a : AList fun _ : String => Any} (e : Value)
    (hmu : c.mu = false) (hm : c.m = some a) (hk : name env fuel T = some k) :
    Add env fuel T c e = some (⟨false, some (a.insert k (toAny T e))⟩, .ret ()) := by
  simp [Add, container.lock, container.unlock, hmu, hm, hk, GoMap.assign]

theorem AddAs_eq {env : TypeEnv} {fuel : Nat} {O : Ty} {c : container} {k : String}
    {a : AList fun _ : String => Any} (T : Ty) (e : Value)
    (hmu : c.mu = false) (hm : c.m = some a) (hk : name env fuel O = some k) :
    AddAs env fuel T O c e = some (⟨false, some (a.insert k (toAny T e))⟩, .ret ()) := by
  simp [AddAs, container.lock, container.unlock, hmu, hm, hk, GoMap.assign]

theorem TryGetAs_eq {env : TypeEnv} {fuel : Nat} {O : Ty} {c : container} {k : String}
    (T : Ty) (hmu : c.mu = false) (hk : name env fuel O = some k) :
    TryGetAs env fuel T O c = some (c, .ret (typeAssert env T (c.m.index k))) := by
  simp [TryGetAs, (unlock_lock hmu).1, (unlock_lock hmu).2, hk]

theorem TryGet_eq {env : TypeEnv} {fuel : Nat} {T : Ty} {c : container} {k : String}
    (hmu : c.mu = false) (hk : name env fuel T = some k) :
    TryGet env fuel T c = some (c, .ret (typeAssert env T (c.m.index k))) := by
  simp [TryGet, (unlock_lock hmu).1, (unlock_lock hmu).2, hk]

theorem GetAs_eq {env : TypeEnv} {fuel : Nat} {O : Ty} {c : container} {k : String}
    (T : Ty) (hmu : c.mu = false) (hk : name env fuel O = some k) :
    GetAs env fuel T O c =
      some (c, if (typeAssert env T (c.m.index k)).2 = true
        then .ret (typeAssert env T (c.m.index k)).1
        else .panic ("item not found of type [" ++ k ++ "]")) := by
  simp only [GetAs, (unlock_lock hmu).1, hk]
  have hc : ({ c with mu := true } : container).m.index k = c.m.index k := rfl
  rw [hc]
  rcases hta : typeAssert env T (c.m.index k) with ⟨t, b⟩
  cases b <;> simp [(unlock_lock hmu).2]

theorem Get_eq {env : TypeEnv} {fuel : Nat} {T : Ty} {c : container} {k : String}
    (hmu : c.mu = false) (hk : name env fuel T = some k) :
    Get env fuel T c =
      some (c, if (typeAssert env T (c.m.index k)).2 = true
        then .ret (typeAssert env T (c.m.index k)).1
        else .panic ("item not found of type [" ++ k ++ "]")) := by
  simp only [Get, (unlock_lock hmu).1, hk]
  have hc : ({ c with mu := true } : container).m.index k = c.m.index k := rfl
  rw [hc]
  rcases hta : typeAssert env T (c.m.index k) with ⟨t, b⟩
  cases b <;> simp [(unlock_lock hmu).2]

theorem Remove_eq {env : TypeEnv} {fuel : Nat} {T : Ty} {c : container} {k : String}
    (hmu : c.mu = false) (hk : name env fuel T = some k) :
    Remove env fuel T c = some (⟨false, c.m.delete k⟩, .ret ()) := by
  simp [Remove, container.lock, container.unlock, hmu, hk]

/-! ## Claims -/

/-- Claim C1 as stated fails at a nil interface value: on a fresh container,
`Add[_tester](c, nil)` returns and creates an entry, but `TryGet[_tester](c)`
then returns `(nil, false)`, not `(nil, true)`. -/
theorem C1_nil_value_not_round_tripped :
    hasType testEnv tester (.iface none) = true ∧
    Add testEnv 2 tester New (.iface none) = some (withNil, .ret ()) ∧
    TryGet testEnv 2 tester withNil = some (withNil, .ret (.iface none, false)) ∧
    TryGet testEnv 2 tester withNil ≠ some (withNil, .ret (.iface none, true)) := by
  decide

/-- Claim C1, amended: for every container at rest `c`, every type `T` whose key
derivation returns, and every value `v` of static type `T`, `Add[T](c, v)` returns
a container `c1` with `Len(c1) ≥ 1`; and when `v` is not a nil interface value,
`TryGet[T](c1)` returns `(v, true)` (leaving `c1` as it is). -/
theorem C1_add_tryget (env : TypeEnv) (fuel : Nat) (T : Ty) (c : container) (v : Value)
    (k : String) (hc : c.ready) (hk : name env fuel T = some k)
    (hv : hasType env T v = true) :
    ∃ c1, Add env fuel T c v = some (c1, .ret ()) ∧ 1 ≤ c1.Len ∧
      (v.isNilIface = false → TryGet env fuel T c1 = some (c1, .ret (v, true))) := by
  obtain ⟨hmu, hm⟩ := hc
  obtain ⟨a, ha⟩ := Option.ne_none_iff_exists'.mp hm
  refine ⟨_, Add_eq v hmu ha hk, len_insert_pos a k _, fun hn => ?_⟩
  rw [TryGet_eq rfl hk]
  simp only [index_insert, typeAssert_toAny hv hn]

/-- Claim C1, amended, at `Add[_tester](New(), x)` with `x` of dynamic type
`_testerImpl`. -/
theorem C1_add_tryget_witness :
    (New.ready ∧ name testEnv 2 tester = some (testPkg ++ "_tester") ∧
      hasType testEnv tester implValue = true) ∧
    ∃ c1, Add testEnv 2 tester New implValue = some (c1, .ret ()) ∧ 1 ≤ c1.Len ∧
      (implValue.isNilIface = false →
        TryGet testEnv 2 tester c1 = some (c1, .ret (implValue, true))) :=
  ⟨by decide, C1_add_tryget testEnv 2 tester New implValue (testPkg ++ "_tester")
    (by decide) (by decide) (by decide)⟩

/-- Reading a key that has an entry yields the stored value. -/
theorem index_of_lookup {a : AList fun _ : String => Any} {k : String} {x : Any}
    (h : a.lookup k = some x) : GoMap.index (some a) k = x := by
  simp [GoMap.index, h]

/-- Reading a key that has no entry yields nil. -/
theorem index_of_lookup_none {a : AList fun _ : String => Any} {k : String}
    (h : a.lookup k = none) : GoMap.index (some a) k = none := by
  simp [GoMap.index, h]

/-- Claim C2 fails on the code at the type declared `type P *P`: `Get[P]` on
`New()` never returns, so it does not panic (the defect of claim C20). For every
type whose key derivation returns a key `k` the claim holds on a container whose
mutex is free: `Get[T]` on `New()` panics; on a container with map entries `a`,
`Get[T]` panics with `"item not found of type [" + k + "]"` when `k` has no
entry, when the entry holds nil, when `T` is an interface type the stored
dynamic type does not implement, and when `T` is not an interface type and the
stored dynamic type is not `T`; in the two remaining cases it returns the stored
value. On the container holding a `_testerImpl` under the key of `_tester`,
`Get[_tester]` returns that value and `Get[_testerImpl]` panics. -/
theorem C2_get_hangs_on_self_pointer :
    (∀ fuel : Nat, Get testEnv fuel selfPtr New = none) ∧
    (∀ (env : TypeEnv) (fuel : Nat) (T : Ty) (k : String), name env fuel T = some k →
      Get env fuel T New = some (New, .panic ("item not found of type [" ++ k ++ "]")) ∧
      ∀ (c : container) (a : AList fun _ : String => Any), c.mu = false → c.m = some a →
        (a.lookup k = none →
          Get env fuel T c = some (c, .panic ("item not found of type [" ++ k ++ "]"))) ∧
        (a.lookup k = some none →
          Get env fuel T c = some (c, .panic ("item not found of type [" ++ k ++ "]"))) ∧
        (∀ d : Dyn, a.lookup k = some (some d) → T.Kind env = Kind.Interface →
          implements env d.ty T = false →
          Get env fuel T c = some (c, .panic ("item not found of type [" ++ k ++ "]"))) ∧
        (∀ d : Dyn, a.lookup k = some (some d) → T.Kind env ≠ Kind.Interface → d.ty ≠ T →
          Get env fuel T c = some (c, .panic ("item not found of type [" ++ k ++ "]"))) ∧
        (∀ d : Dyn, a.lookup k = some (some d) → T.Kind env = Kind.Interface →
          implements env d.ty T = true →
          Get env fuel T c = some (c, .ret (.iface (some d)))) ∧
        (∀ d : Dyn, a.lookup k = some (some d) → T.Kind env ≠ Kind.Interface → d.ty = T →
          Get env fuel T c = some (c, .ret (.data d.data)))) ∧
    Get testEnv 2 tester withTester = some (withTester, .ret implValue) ∧
    Get testEnv 2 testerImpl withTester =
      some (withTester,
        .panic ("item not found of type [" ++ (testPkg ++ "_testerImpl") ++ "]")) := by
  refine ⟨fun fuel => ?_, ?_, by decide, by decide⟩
  · simp [Get, container.lock, New, name_selfPtr]
  · intro env fuel T k hk
    refine ⟨by rw [Get_eq rfl hk]; rfl, fun c a hmu hm => ?_⟩
    rw [Get_eq hmu hk, hm]
    refine ⟨fun h => ?_, fun h => ?_, fun d h hT hi => ?_, fun d h hT hd => ?_,
      fun d h hT hi => ?_, fun d h hT hd => ?_⟩
    · rw [index_of_lookup_none h]; rfl
    · rw [index_of_lookup h]; rfl
    · rw [index_of_lookup h]; simp [typeAssert, hT, hi]
    · rw [index_of_lookup h]; simp [typeAssert, hT, hd]
    · rw [index_of_lookup h]; simp [typeAssert, hT, hi]
    · rw [index_of_lookup h]; simp [typeAssert, hT, hd]

/-- Claim C3: for every container `c` and types `T`, `O`, `TryGetAs[T,O](c)`
returns `(v, true)` exactly when `GetAs[T,O](c)` returns `v`, and returns
`(zero value of T, false)` exactly when `GetAs[T,O](c)` panics; a `false` result
of `TryGetAs` always carries the zero value; likewise `TryGet[T]` against
`Get[T]`; no call of `TryGetAs` or `TryGet` ends in a panic; and both return when
the mutex is free and their key derivation returns. -/
theorem C3_try_variants_agree (env : TypeEnv) (fuel : Nat) (T O : Ty) (c : container) :
    ((∀ c1 v, TryGetAs env fuel T O c = some (c1, .ret (v, true)) ↔
        GetAs env fuel T O c = some (c1, .ret v)) ∧
      (∀ c1, TryGetAs env fuel T O c = some (c1, .ret (zeroValue env T, false)) ↔
        ∃ msg, GetAs env fuel T O c = some (c1, .panic msg)) ∧
      (∀ c1 v, TryGetAs env fuel T O c = some (c1, .ret (v, false)) → v = zeroValue env T) ∧
      (∀ c1 msg, TryGetAs env fuel T O c ≠ some (c1, .panic msg)) ∧
      (c.mu = false → ∀ k, name env fuel O = some k →
        ∃ r, TryGetAs env fuel T O c = some (c, .ret r))) ∧
    ((∀ c1 v, TryGet env fuel T c = some (c1, .ret (v, true)) ↔
        Get env fuel T c = some (c1, .ret v)) ∧
      (∀ c1, TryGet env fuel T c = some (c1, .ret (zeroValue env T, false)) ↔
        ∃ msg, Get env fuel T c = some (c1, .panic msg)) ∧
      (∀ c1 v, TryGet env fuel T c = some (c1, .ret (v, false)) → v = zeroValue env T) ∧
      (∀ c1 msg, TryGet env fuel T c ≠ some (c1, .panic msg)) ∧
      (c.mu = false → ∀ k, name env fuel T = some k →
        ∃ r, TryGet env fuel T c = some (c, .ret r))) := by
  have key : ∀ K : Ty,
      (∀ c1 v, TryGetAs env fuel T K c = some (c1, .ret (v, true)) ↔
        GetAs env fuel T K c = some (c1, .ret v)) ∧
      (∀ c1, TryGetAs env fuel T K c = some (c1, .ret (zeroValue env T, false)) ↔
        ∃ msg, GetAs env fuel T K c = some (c1, .panic msg)) ∧
      (∀ c1 v, TryGetAs env fuel T K c = some (c1, .ret (v, false)) → v = zeroValue env T) ∧
      (∀ c1 msg, TryGetAs env fuel T K c ≠ some (c1, .panic msg)) ∧
      (c.mu = false → ∀ k, name env fuel K = some k →
        ∃ r, TryGetAs env fuel T K c = some (c, .ret r)) := by
    intro K
    cases hmu : c.mu with
    | true => simp [TryGetAs, GetAs, container.lock, hmu]
    | false =>
      cases hk : name env fuel K with
      | none => simp [TryGetAs, GetAs, container.lock, hmu, hk]
      | some k =>
        rw [TryGetAs_eq T hmu hk, GetAs_eq T hmu hk]
        have hz := @typeAssert_fst_of_false env T (c.m.index k)
        rcases hta : typeAssert env T (c.m.index k) with ⟨t, b⟩
        rw [hta] at hz
        cases b
        · have ht : t = zeroValue env T := by
            have := hz rfl
            simp only [Prod.mk.injEq, and_true] at this
            exact this
          subst ht
          simp
        · simp
  exact ⟨key O, key T⟩

/-- Claim C4 as stated fails at a nil interface value: on a fresh container,
after `AddAs[_tester, _testerImpl](c, nil)` the call
`TryGetAs[_tester, _testerImpl](c)` returns `(nil, false)`, not `(nil, true)`. -/
theorem C4_nil_value_under_surrogate_key :
    hasType testEnv tester (.iface none) = true ∧
    name testEnv 2 tester ≠ name testEnv 2 testerImpl ∧
    AddAs testEnv 2 tester testerImpl New (.iface none) =
      some (⟨false, some (AList.singleton (testPkg ++ "_testerImpl") none)⟩, .ret ()) ∧
    TryGetAs testEnv 2 tester testerImpl
        ⟨false, some (AList.singleton (testPkg ++ "_testerImpl") none)⟩ =
      some (⟨false, some (AList.singleton (testPkg ++ "_testerImpl") none)⟩,
        .ret (.iface none, false)) ∧
    TryGetAs testEnv 2 tester testerImpl
        ⟨false, some (AList.singleton (testPkg ++ "_testerImpl") none)⟩ ≠
      some (⟨false, some (AList.singleton (testPkg ++ "_testerImpl") none)⟩,
        .ret (.iface none, true)) := by
  decide

/-- Claim C4, amended: for types `T`, `O` whose keys `kT`, `kO` differ and every
value `v` of static type `T`, `AddAs[T,O](New(), v)` returns a container `c1` on
which `TryGet[T]` returns `(zero, false)` and whose map holds exactly one entry,
stored under `kO`; and when `v` is not a nil interface value, `TryGetAs[T,O](c1)`
returns `(v, true)`. -/
theorem C4_surrogate_keying (env : TypeEnv) (fuel : Nat) (T O : Ty) (v : Value)
    (kT kO : String) (hT : name env fuel T = some kT) (hO : name env fuel O = some kO)
    (hne : kT ≠ kO) (hv : hasType env T v = true) :
    ∃ c1, AddAs env fuel T O New v = some (c1, .ret ()) ∧
      TryGet env fuel T c1 = some (c1, .ret (zeroValue env T, false)) ∧
      c1.m = some (AList.singleton kO (toAny T v)) ∧ c1.Len = 1 ∧
      (v.isNilIface = false → TryGetAs env fuel T O c1 = some (c1, .ret (v, true))) := by
  refine ⟨_, AddAs_eq T v rfl rfl hO, ?_, ?_, ?_, fun hn => ?_⟩
  · rw [TryGet_eq rfl hT]
    simp only [index_insert_ne _ _ hne]
    rfl
  · rw [AList.insert_empty]
  · rw [AList.insert_empty]
    rfl
  · rw [TryGetAs_eq T rfl hO]
    simp only [index_insert, typeAssert_toAny hv hn]

/-- Claim C4, amended, at `AddAs[_tester, _testerImpl](New(), x)`. -/
theorem C4_surrogate_keying_witness :
    (name testEnv 2 tester = some (testPkg ++ "_tester") ∧
      name testEnv 2 testerImpl = some (testPkg ++ "_testerImpl") ∧
      testPkg ++ "_tester" ≠ testPkg ++ "_testerImpl" ∧
      hasType testEnv tester implValue = true) ∧
    ∃ c1, AddAs testEnv 2 tester testerImpl New implValue = some (c1, .ret ()) ∧
      TryGet testEnv 2 tester c1 = some (c1, .ret (zeroValue testEnv tester, false)) ∧
      c1.m = some (AList.singleton (testPkg ++ "_testerImpl") (toAny tester implValue)) ∧
      c1.Len = 1 ∧
      (implValue.isNilIface = false →
        TryGetAs testEnv 2 tester testerImpl c1 = some (c1, .ret (implValue, true))) :=
  ⟨by decide, C4_surrogate_keying testEnv 2 tester testerImpl implValue
    (testPkg ++ "_tester") (testPkg ++ "_testerImpl") (by decide) (by decide) (by decide)
    (by decide)⟩

/-- Claim C5: for types `ImplA`, `ImplB` with different keys and non-nil values
`a`, `b` of static type `Iface` (in particular of an interface type), starting
from `New()`, `AddAs[Iface,ImplA](c, a)` and `AddAs[Iface,ImplB](c, b)` return,
and afterwards `GetAs[Iface,ImplA](c)` returns `a`, `GetAs[Iface,ImplB](c)`
returns `b`, and `Len(c) = 2`. -/
theorem C5_implementations_coexist (env : TypeEnv) (fuel : Nat) (Iface ImplA ImplB : Ty)
    (a b : Value) (kA kB : String) (hA : name env fuel ImplA = some kA)
    (hB : name env fuel ImplB = some kB) (hne : kA ≠ kB)
    (ha : hasType env Iface a = true) (hna : a.isNilIface = false)
    (hb : hasType env Iface b = true) (hnb : b.isNilIface = false) :
    ∃ c1 c2, AddAs env fuel Iface ImplA New a = some (c1, .ret ()) ∧
      AddAs env fuel Iface ImplB c1 b = some (c2, .ret ()) ∧
      GetAs env fuel Iface ImplA c2 = some (c2, .ret a) ∧
      GetAs env fuel Iface ImplB c2 = some (c2, .ret b) ∧
      c2.Len = 2 := by
  refine ⟨_, _, AddAs_eq Iface a rfl rfl hA, AddAs_eq Iface b rfl rfl hB, ?_, ?_, ?_⟩
  · rw [GetAs_eq Iface rfl hA]
    simp only [index_insert_ne _ _ hne, index_insert, typeAssert_toAny ha hna, if_true]
  · rw [GetAs_eq Iface rfl hB]
    simp only [index_insert, typeAssert_toAny hb hnb, if_true]
  · show GoMap.len _ = 2
    rw [len_insert_of_not_mem, len_insert_of_not_mem]
    · rfl
    · exact AList.not_mem_empty kA
    · intro h
      rcases (AList.mem_insert _).mp h with h | h
      · exact hne h.symm
      · exact AList.not_mem_empty kB h

/-- Claim C5 at `Iface = _tester`, `ImplA = _testerImpl`, `ImplB = a.bc`. -/
theorem C5_implementations_coexist_witness :
    (name testEnv 2 testerImpl = some (testPkg ++ "_testerImpl") ∧
      name testEnv 2 (.named "a" "bc") = some "abc" ∧
      testPkg ++ "_testerImpl" ≠ "abc" ∧
      hasType testEnv tester implValue = true ∧ implValue.isNilIface = false ∧
      hasType testEnv tester (.iface (some ⟨.ptr testerImpl, 9⟩)) = true ∧
      (Value.iface (some ⟨.ptr testerImpl, 9⟩)).isNilIface = false) ∧
    ∃ c1 c2, AddAs testEnv 2 tester testerImpl New implValue = some (c1, .ret ()) ∧
      AddAs testEnv 2 tester (.named "a" "bc") c1 (.iface (some ⟨.ptr testerImpl, 9⟩)) =
        some (c2, .ret ()) ∧
      GetAs testEnv 2 tester testerImpl c2 = some (c2, .ret implValue) ∧
      GetAs testEnv 2 tester (.named "a" "bc") c2 =
        some (c2, .ret (.iface (some ⟨.ptr testerImpl, 9⟩))) ∧
      c2.Len = 2 :=
  ⟨by decide, C5_implementations_coexist testEnv 2 tester testerImpl (.named "a" "bc")
    implValue (.iface (some ⟨.ptr testerImpl, 9⟩)) (testPkg ++ "_testerImpl") "abc"
    (by decide) (by decide) (by decide) (by decide) (by decide) (by decide) (by decide)⟩

/-- Claim C6 as stated fails when the second value is a nil interface value:
after `Add[_tester](c, x)` and `Add[_tester](c, nil)` on a fresh container,
`TryGet[_tester](c)` returns `(nil, false)`, not `(nil, true)`. -/
theorem C6_nil_replacement_reads_absent :
    hasType testEnv tester implValue = true ∧ hasType testEnv tester (.iface none) = true ∧
    Add testEnv 2 tester New implValue = some (withTester, .ret ()) ∧
    Add testEnv 2 tester withTester (.iface none) = some (withNil, .ret ()) ∧
    withNil.Len = withTester.Len ∧
    TryGet testEnv 2 tester withNil ≠ some (withNil, .ret (.iface none, true)) := by
  decide

/-- Claim C6, amended: for every container at rest `c`, type `T` whose key
derivation returns and values `v1`, `v2` (`v2` of static type `T`), `Add[T](c, v1)`
and then `Add[T](c, v2)` both return without panic, `Len(c)` is the same before and
after the second `Add`, and when `v2` is not a nil interface value `TryGet[T](c)`
then returns `(v2, true)`. -/
theorem C6_replacement (env : TypeEnv) (fuel : Nat) (T : Ty) (c : container)
    (v1 v2 : Value) (k : String) (hc : c.ready) (hk : name env fuel T = some k)
    (hv2 : hasType env T v2 = true) :
    ∃ c1 c2, Add env fuel T c v1 = some (c1, .ret ()) ∧
      Add env fuel T c1 v2 = some (c2, .ret ()) ∧ c2.Len = c1.Len ∧
      (v2.isNilIface = false → TryGet env fuel T c2 = some (c2, .ret (v2, true))) := by
  obtain ⟨hmu, hm⟩ := hc
  obtain ⟨a, ha⟩ := Option.ne_none_iff_exists'.mp hm
  refine ⟨_, _, Add_eq v1 hmu ha hk, Add_eq v2 rfl rfl hk, ?_, fun hn => ?_⟩
  · exact len_insert_of_mem _ ((AList.mem_insert a).mpr (Or.inl rfl))
  · rw [TryGet_eq rfl hk]
    simp only [index_insert, typeAssert_toAny hv2 hn]

/-- Claim C6, amended, at two values of static type `_tester` added to `New()`. -/
theorem C6_replacement_witness :
    (New.ready ∧ name testEnv 2 tester = some (testPkg ++ "_tester") ∧
      hasType testEnv tester implValue = true) ∧
    ∃ c1 c2, Add testEnv 2 tester New (.iface (some ⟨.ptr testerImpl, 9⟩)) =
        some (c1, .ret ()) ∧
      Add testEnv 2 tester c1 implValue = some (c2, .ret ()) ∧ c2.Len = c1.Len ∧
      (implValue.isNilIface = false →
        TryGet testEnv 2 tester c2 = some (c2, .ret (implValue, true))) :=
  ⟨by decide, C6_replacement testEnv 2 tester New (.iface (some ⟨.ptr testerImpl, 9⟩))
    implValue (testPkg ++ "_tester") (by decide) (by decide) (by decide)⟩

/-- Claim C7 as stated fails when the value added after the removal is a nil
interface value: `Remove[_tester](c)` then `Add[_tester](c, nil)` leaves
`Get[_tester](c)` panicking instead of returning the value added. -/
theorem C7_nil_readd_still_panics :
    hasType testEnv tester (.iface none) = true ∧
    Remove testEnv 2 tester withTester = some (New, .ret ()) ∧
    Add testEnv 2 tester New (.iface none) = some (withNil, .ret ()) ∧
    Get testEnv 2 tester withNil =
      some (withNil, .panic ("item not found of type [" ++ (testPkg ++ "_tester") ++ "]")) ∧
    Get testEnv 2 tester withNil ≠ some (withNil, .ret (.iface none)) := by
  decide

/-- Claim C7, amended: for every container `c` whose mutex is free and every type
`T` with key `k`, whether or not `k` was present, `Remove[T](c)` returns a
container `c1` on which `TryGet[T]` returns `(zero, false)` and `Get[T]` panics;
when `c` had no entry under `k`, `c1` is `c` unchanged; and when the map of `c` is
made, a later `Add[T](c1, v2)` of a value of static type `T` that is not a nil
interface value makes `Get[T]` return `v2`. -/
theorem C7_remove_clears_slot (env : TypeEnv) (fuel : Nat) (T : Ty) (c : container)
    (k : String) (hmu : c.mu = false) (hk : name env fuel T = some k) :
    ∃ c1, Remove env fuel T c = some (c1, .ret ()) ∧
      TryGet env fuel T c1 = some (c1, .ret (zeroValue env T, false)) ∧
      Get env fuel T c1 = some (c1, .panic ("item not found of type [" ++ k ++ "]")) ∧
      (c.m.has k = false → c1 = c) ∧
      (∀ v2, c.m ≠ none → hasType env T v2 = true → v2.isNilIface = false →
        ∃ c2, Add env fuel T c1 v2 = some (c2, .ret ()) ∧
          Get env fuel T c2 = some (c2, .ret v2)) := by
  have hidx : (c.m.delete k).index k = none := by
    cases hm : c.m with
    | none => rfl
    | some a => exact index_erase a k
  refine ⟨_, Remove_eq hmu hk, ?_, ?_, ?_, ?_⟩
  · rw [TryGet_eq rfl hk]
    simp only [hidx, typeAssert_none]
  · rw [Get_eq rfl hk]
    simp only [hidx, typeAssert_none, Bool.false_eq_true, if_false]
  · intro hno
    obtain ⟨mu, m⟩ := c
    simp only at hmu hno
    subst hmu
    cases m with
    | none => rfl
    | some a =>
      have hnm : k ∉ a := fun h => by
        rw [(has_iff_mem a k).mpr h] at hno
        exact Bool.noConfusion hno
      simp only [GoMap.delete, erase_of_not_mem hnm]
  · intro v2 hm hv hn
    obtain ⟨a, ha⟩ := Option.ne_none_iff_exists'.mp hm
    have hd : c.m.delete k = some (a.erase k) := by rw [ha]; rfl
    refine ⟨_, Add_eq v2 rfl hd hk, ?_⟩
    rw [Get_eq rfl hk]
    simp only [index_insert, typeAssert_toAny hv hn, if_true]

/-- Claim C7, amended, at `Remove[_tester]` on the container holding a
`_testerImpl` under the key of `_tester`. -/
theorem C7_remove_clears_slot_witness :
    (withTester.mu = false ∧ name testEnv 2 tester = some (testPkg ++ "_tester")) ∧
    ∃ c1, Remove testEnv 2 tester withTester = some (c1, .ret ()) ∧
      TryGet testEnv 2 tester c1 = some (c1, .ret (zeroValue testEnv tester, false)) ∧
      Get testEnv 2 tester c1 =
        some (c1, .panic ("item not found of type [" ++ (testPkg ++ "_tester") ++ "]")) ∧
      (withTester.m.has (testPkg ++ "_tester") = false → c1 = withTester) ∧
      (∀ v2, withTester.m ≠ none → hasType testEnv tester v2 = true →
        v2.isNilIface = false →
        ∃ c2, Add testEnv 2 tester c1 v2 = some (c2, .ret ()) ∧
          Get testEnv 2 tester c2 = some (c2, .ret v2)) :=
  ⟨by decide, C7_remove_clears_slot testEnv 2 tester withTester (testPkg ++ "_tester")
    (by decide) (by decide)⟩

/-- Claim C8: for every container `c` whose mutex is free and every type `T` whose
key derivation returns, `Remove[T](c)` returns a container `c1`, and a second
`Remove[T]` on `c1` returns `c1` again: two removals leave the same state as one. -/
theorem C8_remove_idempotent (env : TypeEnv) (fuel : Nat) (T : Ty) (c : container)
    (k : String) (hmu : c.mu = false) (hk : name env fuel T = some k) :
    ∃ c1, Remove env fuel T c = some (c1, .ret ()) ∧
      Remove env fuel T c1 = some (c1, .ret ()) := by
  refine ⟨_, Remove_eq hmu hk, ?_⟩
  rw [Remove_eq rfl hk]
  cases hm : c.m with
  | none => rfl
  | some a => simp only [GoMap.delete, erase_idem]

/-- Claim C8 at `Remove[_tester]` on the container holding a `_testerImpl` under
the key of `_tester`. -/
theorem C8_remove_idempotent_witness :
    (withTester.mu = false ∧ name testEnv 2 tester = some (testPkg ++ "_tester")) ∧
    ∃ c1, Remove testEnv 2 tester withTester = some (c1, .ret ()) ∧
      Remove testEnv 2 tester c1 = some (c1, .ret ()) :=
  ⟨by decide, C8_remove_idempotent testEnv 2 tester withTester (testPkg ++ "_tester")
    (by decide) (by decide)⟩

/-- Appending to a common first part is injective on strings. -/
theorem append_left_cancel {p n1 n2 : String} (h : p ++ n1 = p ++ n2) : n1 = n2 := by
  have hd := congrArg String.data h
  simp only [String.data_append] at hd
  exact String.ext (List.append_cancel_left hd)

/-- Deleting the only key of a one-entry map leaves the empty map. -/
theorem erase_singleton (k : String) (x : Any) :
    (AList.singleton k x : AList fun _ : String => Any).erase k = ∅ :=
  AList.ext (by simp [AList.erase, AList.singleton, List.kerase_cons_eq])

/-- The key of a type whose pointer-stripping ends at `s`. -/
theorem name_of_stripPtr {env : TypeEnv} {fuel : Nat} {T s : Ty}
    (h : stripPtr env fuel (Ty.ptr T) = some s) :
    name env fuel T = some (s.PkgPath ++ s.Name) := by
  simp [name, h]

/-- Key of a defined type that is not of pointer kind: package path and name,
concatenated. -/
theorem name_named {env : TypeEnv} {P N : String}
    (hX : (Ty.named P N).Kind env ≠ Kind.Ptr) (fuel : Nat) :
    name env (fuel + 2) (Ty.named P N) = some (P ++ N) := by
  have h1 : stripPtr env (fuel + 1) (Ty.named P N) = some (Ty.named P N) := by
    simp [stripPtr, hX]
  have h2 : stripPtr env (fuel + 2) (Ty.ptr (Ty.named P N)) = some (Ty.named P N) := by
    rw [← h1]
    simp [stripPtr, Ty.Kind, Ty.literal, Ty.litKind, Ty.Elem]
  rw [name_of_stripPtr h2]
  rfl

/-- Claim C10: for a defined type `X` of package path `P` and name `N` that is not
of pointer kind, `name[X]()` is `P ++ N`, and so is the key of every pointer chain
`*X`, `**X`, ... over `X` (given fuel for the chain); hence on a fresh container
`Add[*X](c, p)` followed by `Add[X](c, x)` leaves exactly one entry, stored under
`P ++ N` and holding `x`, `Add[*X](c, p)` followed by `Remove[X](c)` leaves no
entry, and after `Add[*X](c, p)` a lookup keyed by `X` finds `p`. -/
theorem C10_key_format_ptr_stripping (env : TypeEnv) (P N : String)
    (hX : (Ty.named P N).Kind env ≠ Kind.Ptr) :
    (∀ fuel, name env (fuel + 2) (Ty.named P N) = some (P ++ N)) ∧
    (∀ n fuel, name env (fuel + n + 2) (Ty.ptr^[n] (Ty.named P N)) = some (P ++ N)) ∧
    (∀ p x : Value, ∃ c1 c2,
      Add env 3 (Ty.ptr (Ty.named P N)) New p = some (c1, .ret ()) ∧
      Add env 3 (Ty.named P N) c1 x = some (c2, .ret ()) ∧
      c2.Len = 1 ∧ c2.m = some (AList.singleton (P ++ N) (toAny (Ty.named P N) x)) ∧
      Remove env 3 (Ty.named P N) c1 = some (New, .ret ()) ∧
      TryGetAs env 3 (Ty.ptr (Ty.named P N)) (Ty.named P N) c1 =
        some (c1, .ret (typeAssert env (Ty.ptr (Ty.named P N))
          (toAny (Ty.ptr (Ty.named P N)) p)))) := by
  have hchain : ∀ n fuel,
      name env (fuel + n + 2) (Ty.ptr^[n] (Ty.named P N)) = some (P ++ N) := by
    intro n
    induction n with
    | zero => intro fuel; exact name_named hX fuel
    | succ n ih =>
      intro fuel
      rw [Function.iterate_succ_apply', show fuel + (n + 1) + 2 = (fuel + n + 2) + 1 by omega,
        name_ptr]
      exact ih fuel
  have hk : name env 3 (Ty.named P N) = some (P ++ N) := name_named hX 1
  have hkp : name env 3 (Ty.ptr (Ty.named P N)) = some (P ++ N) := hchain 1 0
  refine ⟨name_named hX, hchain, fun p x => ?_⟩
  refine ⟨_, _, Add_eq p rfl rfl hkp, Add_eq x rfl rfl hk, ?_, ?_, ?_, ?_⟩
  · show GoMap.len _ = 1
    rw [len_insert_of_mem _ ((AList.mem_insert _).mpr (Or.inl rfl)),
      len_insert_of_not_mem _ (AList.not_mem_empty _)]
    rfl
  · rw [AList.insert_insert, AList.insert_empty]
  · rw [Remove_eq rfl hk]
    simp only [GoMap.delete, AList.insert_empty, erase_singleton]
    rfl
  · rw [TryGetAs_eq _ rfl hk]
    simp only [index_insert]

/-- Claim C10 at `X = _testerImpl`. -/
theorem C10_key_format_ptr_stripping_witness :
    testerImpl.Kind testEnv ≠ Kind.Ptr ∧
    ((∀ fuel, name testEnv (fuel + 2) testerImpl = some (testPkg ++ "_testerImpl")) ∧
    (∀ n fuel, name testEnv (fuel + n + 2) (Ty.ptr^[n] testerImpl) =
      some (testPkg ++ "_testerImpl")) ∧
    (∀ p x : Value, ∃ c1 c2,
      Add testEnv 3 (Ty.ptr testerImpl) New p = some (c1, .ret ()) ∧
      Add testEnv 3 testerImpl c1 x = some (c2, .ret ()) ∧
      c2.Len = 1 ∧
      c2.m = some (AList.singleton (testPkg ++ "_testerImpl") (toAny testerImpl x)) ∧
      Remove testEnv 3 testerImpl c1 = some (New, .ret ()) ∧
      TryGetAs testEnv 3 (Ty.ptr testerImpl) testerImpl c1 =
        some (c1, .ret (typeAssert testEnv (Ty.ptr testerImpl)
          (toAny (Ty.ptr testerImpl) p))))) :=
  ⟨by decide, C10_key_format_ptr_stripping testEnv testPkg "_testerImpl" (by decide)⟩

/-- Claim C11 as stated fails when the colliding type `B` is an interface type
that the stored value satisfies: `[]int` and `any` are distinct types with the
same key `""`, and after `Add[[]int](c, xs)` on a fresh container `Get[any](c)`
returns `xs` (as an `any` of dynamic type `[]int`) and `TryGet[any](c)` returns it
with `true`. -/
theorem C11_interface_collision_returns_value :
    Ty.slice (.basic "int") ≠ Ty.iface [] ∧
    name testEnv 2 (.slice (.basic "int")) = name testEnv 2 (.iface []) ∧
    hasType testEnv (.slice (.basic "int")) (.data 5) = true ∧
    Add testEnv 2 (.slice (.basic "int")) New (.data 5) = some (withIntSlice, .ret ()) ∧
    Get testEnv 2 (.iface []) withIntSlice =
      some (withIntSlice, .ret (.iface (some ⟨.slice (.basic "int"), 5⟩))) ∧
    TryGet testEnv 2 (.iface []) withIntSlice =
      some (withIntSlice, .ret (.iface (some ⟨.slice (.basic "int"), 5⟩), true)) := by
  decide

/-- Claim C11, amended: for every two distinct non-interface types `A` and `B`
with the same key `k` and every value `v` of static type `A`, after
`Add[A](c, v)` on a fresh container `Get[B](c)` panics (with the message naming
`k`) and `TryGet[B](c)` returns `(zero, false)`. -/
theorem C11_no_coercion_between_concrete_types (env : TypeEnv) (fuel : Nat) (A B : Ty)
    (v : Value) (k : String) (hne : A ≠ B) (hA : name env fuel A = some k)
    (hB : name env fuel B = some k) (hv : hasType env A v = true)
    (hAk : A.Kind env ≠ Kind.Interface) (hBk : B.Kind env ≠ Kind.Interface) :
    ∃ c1, Add env fuel A New v = some (c1, .ret ()) ∧
      Get env fuel B c1 = some (c1, .panic ("item not found of type [" ++ k ++ "]")) ∧
      TryGet env fuel B c1 = some (c1, .ret (zeroValue env B, false)) := by
  have hta : typeAssert env B (toAny A v) = (zeroValue env B, false) := by
    cases v with
    | data d => simp [toAny, typeAssert, hBk, hne]
    | iface i =>
      cases i with
      | none => rfl
      | some d =>
        simp only [hasType, Bool.and_eq_true, decide_eq_true_eq] at hv
        exact absurd hv.1.1 hAk
  refine ⟨_, Add_eq v rfl rfl hA, ?_, ?_⟩
  · rw [Get_eq rfl hB]
    simp only [index_insert, hta, Bool.false_eq_true, if_false]
  · rw [TryGet_eq rfl hB]
    simp only [index_insert, hta]

/-- Claim C11, amended, at `A = *_testerImpl` and `B = _testerImpl`. -/
theorem C11_no_coercion_between_concrete_types_witness :
    (Ty.ptr testerImpl ≠ testerImpl ∧
      name testEnv 3 (.ptr testerImpl) = some (testPkg ++ "_testerImpl") ∧
      name testEnv 3 testerImpl = some (testPkg ++ "_testerImpl") ∧
      hasType testEnv (.ptr testerImpl) (.data 4) = true ∧
      (Ty.ptr testerImpl).Kind testEnv ≠ Kind.Interface ∧
      testerImpl.Kind testEnv ≠ Kind.Interface) ∧
    ∃ c1, Add testEnv 3 (.ptr testerImpl) New (.data 4) = some (c1, .ret ()) ∧
      Get testEnv 3 testerImpl c1 =
        some (c1, .panic ("item not found of type [" ++ (testPkg ++ "_testerImpl") ++ "]")) ∧
      TryGet testEnv 3 testerImpl c1 = some (c1, .ret (zeroValue testEnv testerImpl, false)) :=
  ⟨by decide, C11_no_coercion_between_concrete_types testEnv 3 (.ptr testerImpl) testerImpl
    (.data 4) (testPkg ++ "_testerImpl") (by decide) (by decide) (by decide) (by decide)
    (by decide) (by decide)⟩

/-- Claim C12: `Get[T]` is retrieval by the key `name[T]()` and `GetAs[T,O]` is the
same retrieval by the key `name[O]()` (same success value, same failure
condition, same message); `GetAs[T,T]` and `Get[T]` have the same outcome on
every container, `AddAs[T,T]` is `Add[T]`, and `TryGetAs[T,T]` is `TryGet[T]`. -/
theorem C12_getAs_is_get_with_other_key (env : TypeEnv) (fuel : Nat) (T O : Ty)
    (c : container) (e : Value) :
    Get env fuel T c = specGetByKey env T (name env fuel T) c ∧
    GetAs env fuel T O c = specGetByKey env T (name env fuel O) c ∧
    GetAs env fuel T T c = Get env fuel T c ∧
    AddAs env fuel T T c e = Add env fuel T c e ∧
    TryGetAs env fuel T T c = TryGet env fuel T c := by
  have hkey : ∀ K : Ty, GetAs env fuel T K c = specGetByKey env T (name env fuel K) c := by
    intro K
    cases hmu : c.mu with
    | true => simp [GetAs, specGetByKey, container.lock, hmu]
    | false =>
      cases hk : name env fuel K with
      | none => simp [GetAs, specGetByKey, container.lock, hmu, hk]
      | some k =>
        have hfail : (c.m.has k = false ∨ (typeAssert env T (c.m.index k)).2 = false) ↔
            (typeAssert env T (c.m.index k)).2 = false := by
          constructor
          · rintro (h | h)
            · rw [index_of_has_false h]; rfl
            · exact h
          · exact Or.inr
        rw [GetAs_eq T hmu hk]
        simp only [specGetByKey, hmu, hfail, Bool.false_eq_true, if_false]
        cases (typeAssert env T (c.m.index k)).2 <;> simp
  exact ⟨hkey T, hkey O, rfl, rfl, rfl⟩

/-! ## Reachable containers -/

theorem len_erase_of_mem {a : AList fun _ : String => Any} {k : String} (h : k ∈ a) :
    GoMap.len (some (a.erase k)) + 1 = GoMap.len (some a) := by
  rw [len_some, len_some, AList.keys_erase, List.length_erase_of_mem (AList.mem_keys.mp h)]
  have : 0 < a.keys.length := List.length_pos_of_mem (AList.mem_keys.mp h)
  omega

theorem has_false_iff_not_mem (a : AList fun _ : String => Any) (k : String) :
    GoMap.has (some a) k = false ↔ k ∉ a := by
  rw [← has_iff_mem, Bool.not_eq_true]

/-- A call that ends on a container at rest leaves a container at rest. -/
theorem step_ready {env : TypeEnv} {c c1 : container} (hc : c.ready) (hs : Step env c c1) :
    c1.ready := by
  obtain ⟨hmu, hm⟩ := hc
  obtain ⟨a, ha⟩ := Option.ne_none_iff_exists'.mp hm
  have hcr : c.ready := ⟨hmu, hm⟩
  cases hs with
  | add fuel T e r h =>
    cases hk : name env fuel T with
    | none => simp [Add, container.lock, hmu, hk] at h
    | some k =>
      rw [Add_eq e hmu ha hk] at h
      simp only [Option.some.injEq, Prod.mk.injEq] at h
      rw [← h.1]
      exact ⟨rfl, by simp⟩
  | addAs fuel T O e r h =>
    cases hk : name env fuel O with
    | none => simp [AddAs, container.lock, hmu, hk] at h
    | some k =>
      rw [AddAs_eq T e hmu ha hk] at h
      simp only [Option.some.injEq, Prod.mk.injEq] at h
      rw [← h.1]
      exact ⟨rfl, by simp⟩
  | get fuel T r h =>
    cases hk : name env fuel T with
    | none => simp [Get, container.lock, hmu, hk] at h
    | some k =>
      rw [Get_eq hmu hk] at h
      simp only [Option.some.injEq, Prod.mk.injEq] at h
      rw [← h.1]
      exact hcr
  | getAs fuel T O r h =>
    cases hk : name env fuel O with
    | none => simp [GetAs, container.lock, hmu, hk] at h
    | some k =>
      rw [GetAs_eq T hmu hk] at h
      simp only [Option.some.injEq, Prod.mk.injEq] at h
      rw [← h.1]
      exact hcr
  | tryGet fuel T r h =>
    cases hk : name env fuel T with
    | none => simp [TryGet, container.lock, hmu, hk] at h
    | some k =>
      rw [TryGet_eq hmu hk] at h
      simp only [Option.some.injEq, Prod.mk.injEq] at h
      rw [← h.1]
      exact hcr
  | tryGetAs fuel T O r h =>
    cases hk : name env fuel O with
    | none => simp [TryGetAs, container.lock, hmu, hk] at h
    | some k =>
      rw [TryGetAs_eq T hmu hk] at h
      simp only [Option.some.injEq, Prod.mk.injEq] at h
      rw [← h.1]
      exact hcr
  | remove fuel T r h =>
    cases hk : name env fuel T with
    | none => simp [Remove, container.lock, hmu, hk] at h
    | some k =>
      rw [Remove_eq hmu hk] at h
      simp only [Option.some.injEq, Prod.mk.injEq] at h
      rw [← h.1]
      exact ⟨rfl, by simp [ha, GoMap.delete]⟩

/-- Every container reachable from `New()` is at rest: mutex free, map made. -/
theorem reachable_ready {env : TypeEnv} {c : container} (hr : Reachable env c) : c.ready := by
  induction hr with
  | new => exact ⟨rfl, by simp [New]⟩
  | step _ hs ih => exact step_ready ih hs

/-- Entry count after an insertion, by presence of the key. -/
theorem len_insert (a : AList fun _ : String => Any) (k : String) (x : Any) :
    GoMap.len (some (a.insert k x)) =
      if GoMap.has (some a) k = true then GoMap.len (some a) else GoMap.len (some a) + 1 := by
  by_cases h : k ∈ a
  · rw [if_pos ((has_iff_mem a k).mpr h), len_insert_of_mem x h]
  · rw [if_neg (fun hh => h ((has_iff_mem a k).mp hh)), len_insert_of_not_mem x h]

/-- Claim C13: `Len(New())` is 0; for every container `c` reachable from `New()`,
`Len(c)` is the number of distinct keys holding an entry; `Add[T]` and
`AddAs[T,O]` return a container whose `Len` is that of `c` if their key was
present and one more if it was absent; `Remove[T]` returns a container whose
`Len` is one less if the key was present and the same if it was absent. -/
theorem C13_len_counts_entries (env : TypeEnv) (c : container) (hr : Reachable env c) :
    New.Len = 0 ∧
    (∃ ks : Finset String, (∀ k, k ∈ ks ↔ c.m.has k = true) ∧ c.Len = ks.card) ∧
    (∀ fuel T e k, name env fuel T = some k →
      ∃ c1, Add env fuel T c e = some (c1, .ret ()) ∧
        c1.Len = if c.m.has k = true then c.Len else c.Len + 1) ∧
    (∀ fuel T O e k, name env fuel O = some k →
      ∃ c1, AddAs env fuel T O c e = some (c1, .ret ()) ∧
        c1.Len = if c.m.has k = true then c.Len else c.Len + 1) ∧
    (∀ fuel T k, name env fuel T = some k →
      ∃ c1, Remove env fuel T c = some (c1, .ret ()) ∧
        (c.m.has k = true → c1.Len + 1 = c.Len) ∧ (c.m.has k = false → c1.Len = c.Len)) := by
  obtain ⟨hmu, hm⟩ := reachable_ready hr
  obtain ⟨a, ha⟩ := Option.ne_none_iff_exists'.mp hm
  refine ⟨rfl, ⟨a.keys.toFinset, fun k => ?_, ?_⟩, ?_, ?_, ?_⟩
  · rw [List.mem_toFinset, ha, has_iff_mem, AList.mem_keys]
  · rw [List.toFinset_card_of_nodup a.keys_nodup]
    show GoMap.len c.m = _
    rw [ha, len_some]
  · intro fuel T e k hk
    refine ⟨_, Add_eq e hmu ha hk, ?_⟩
    simp only [container.Len, ha, len_insert]
  · intro fuel T O e k hk
    refine ⟨_, AddAs_eq T e hmu ha hk, ?_⟩
    simp only [container.Len, ha, len_insert]
  · intro fuel T k hk
    refine ⟨_, Remove_eq hmu hk, ?_, ?_⟩
    · intro hh
      show GoMap.len (c.m.delete k) + 1 = GoMap.len c.m
      rw [ha] at hh ⊢
      exact len_erase_of_mem ((has_iff_mem a k).mp hh)
    · intro hh
      show GoMap.len (c.m.delete k) = GoMap.len c.m
      rw [ha] at hh ⊢
      simp only [GoMap.delete, erase_of_not_mem ((has_false_iff_not_mem a k).mp hh)]

/-- Claim C13 at the container reached by `Add[_tester](New(), x)`. -/
theorem C13_len_counts_entries_witness :
    Reachable testEnv withTester ∧
    (New.Len = 0 ∧
    (∃ ks : Finset String, (∀ k, k ∈ ks ↔ withTester.m.has k = true) ∧
      withTester.Len = ks.card) ∧
    (∀ fuel T e k, name testEnv fuel T = some k →
      ∃ c1, Add testEnv fuel T withTester e = some (c1, .ret ()) ∧
        c1.Len = if withTester.m.has k = true then withTester.Len else withTester.Len + 1) ∧
    (∀ fuel T O e k, name testEnv fuel O = some k →
      ∃ c1, AddAs testEnv fuel T O withTester e = some (c1, .ret ()) ∧
        c1.Len = if withTester.m.has k = true then withTester.Len else withTester.Len + 1) ∧
    (∀ fuel T k, name testEnv fuel T = some k →
      ∃ c1, Remove testEnv fuel T withTester = some (c1, .ret ()) ∧
        (withTester.m.has k = true → c1.Len + 1 = withTester.Len) ∧
        (withTester.m.has k = false → c1.Len = withTester.Len))) :=
  ⟨Reachable.step Reachable.new (Step.add 2 tester implValue (.ret ()) (by decide)),
    C13_len_counts_entries testEnv withTester
      (Reachable.step Reachable.new (Step.add 2 tester implValue (.ret ()) (by decide)))⟩

/-- Claim C14 fails on the code at the type declared `type P *P`: on `New()`,
`Add[P]`, `AddAs[_tester, P]` and `Remove[P]` never return (the defect of claim
C20), so they do not complete. Apart from that the claim holds: `New()` has a
made (non-nil) map and a free mutex; on every container reachable from `New()`
no call of `Add`, `AddAs` or `Remove` ends in a panic, whatever the types and the
value, and each returns, leaving a reachable container, whenever its key
derivation returns; `Len` is a total function of the container. -/
theorem C14_mutations_hang_on_self_pointer :
    (Reachable testEnv New ∧
      ∀ (fuel : Nat) (e : Value), Add testEnv fuel selfPtr New e = none ∧
        AddAs testEnv fuel tester selfPtr New e = none ∧
        Remove testEnv fuel selfPtr New = none) ∧
    (New.m ≠ none ∧ New.mu = false) ∧
    (∀ (env : TypeEnv) (c : container), Reachable env c →
      (∀ fuel T e c1 msg, Add env fuel T c e ≠ some (c1, .panic msg)) ∧
      (∀ fuel T O e c1 msg, AddAs env fuel T O c e ≠ some (c1, .panic msg)) ∧
      (∀ fuel T c1 msg, Remove env fuel T c ≠ some (c1, .panic msg)) ∧
      (∀ fuel T e k, name env fuel T = some k →
        ∃ c1, Add env fuel T c e = some (c1, .ret ()) ∧ Reachable env c1) ∧
      (∀ fuel T O e k, name env fuel O = some k →
        ∃ c1, AddAs env fuel T O c e = some (c1, .ret ()) ∧ Reachable env c1) ∧
      (∀ fuel T k, name env fuel T = some k →
        ∃ c1, Remove env fuel T c = some (c1, .ret ()) ∧ Reachable env c1) ∧
      c.Len = c.m.len) := by
  refine ⟨⟨Reachable.new, fun fuel e => ?_⟩, ⟨by simp [New], rfl⟩, fun env c hr => ?_⟩
  · refine ⟨?_, ?_, ?_⟩
    · simp [Add, container.lock, New, name_selfPtr]
    · simp [AddAs, container.lock, New, name_selfPtr]
    · simp [Remove, container.lock, New, name_selfPtr]
  · obtain ⟨hmu, hm⟩ := reachable_ready hr
    obtain ⟨a, ha⟩ := Option.ne_none_iff_exists'.mp hm
    refine ⟨?_, ?_, ?_, ?_, ?_, ?_, rfl⟩
    · intro fuel T e c1 msg
      cases hk : name env fuel T with
      | none => simp [Add, container.lock, hmu, hk]
      | some k => simp [Add_eq e hmu ha hk]
    · intro fuel T O e c1 msg
      cases hk : name env fuel O with
      | none => simp [AddAs, container.lock, hmu, hk]
      | some k => simp [AddAs_eq T e hmu ha hk]
    · intro fuel T c1 msg
      cases hk : name env fuel T with
      | none => simp [Remove, container.lock, hmu, hk]
      | some k => simp [Remove_eq hmu hk]
    · intro fuel T e k hk
      exact ⟨_, Add_eq e hmu ha hk,
        Reachable.step hr (Step.add fuel T e _ (Add_eq e hmu ha hk))⟩
    · intro fuel T O e k hk
      exact ⟨_, AddAs_eq T e hmu ha hk,
        Reachable.step hr (Step.addAs fuel T O e _ (AddAs_eq T e hmu ha hk))⟩
    · intro fuel T k hk
      exact ⟨_, Remove_eq hmu hk,
        Reachable.step hr (Step.remove fuel T _ (Remove_eq hmu hk))⟩

/-- Claim C15: for every interface type `T` with key `k` and every container at
rest `c`, `Add[T](c, nil)` returns without panic a container `c1` that has an
entry under `k`, counted by `Len` (`Len` is unchanged if `k` already had an
entry, one more otherwise); yet `TryGet[T](c1)` returns `(nil, false)` and
`Get[T](c1)` panics, exactly as they do on any container `d` that has no entry
under `k`. -/
theorem C15_nil_registered_reads_absent (env : TypeEnv) (fuel : Nat) (T : Ty)
    (c : container) (k : String) (hc : c.ready) (hk : name env fuel T = some k)
    (hT : T.Kind env = Kind.Interface) :
    hasType env T (.iface none) = true ∧
    (∃ c1, Add env fuel T c (.iface none) = some (c1, .ret ()) ∧
      c1.m.has k = true ∧ c1.m.index k = none ∧
      (c1.Len = if c.m.has k = true then c.Len else c.Len + 1) ∧
      TryGet env fuel T c1 = some (c1, .ret (.iface none, false)) ∧
      Get env fuel T c1 = some (c1, .panic ("item not found of type [" ++ k ++ "]"))) ∧
    (∀ d : container, d.mu = false → d.m.has k = false →
      TryGet env fuel T d = some (d, .ret (.iface none, false)) ∧
      Get env fuel T d = some (d, .panic ("item not found of type [" ++ k ++ "]"))) := by
  obtain ⟨hmu, hm⟩ := hc
  obtain ⟨a, ha⟩ := Option.ne_none_iff_exists'.mp hm
  have hz : typeAssert env T none = (.iface none, false) := by
    simp [typeAssert, zeroValue, hT]
  refine ⟨by simp [hasType, hT], ⟨_, Add_eq _ hmu ha hk, ?_, ?_, ?_, ?_, ?_⟩, ?_⟩
  · exact (has_iff_mem _ k).mpr ((AList.mem_insert a).mpr (Or.inl rfl))
  · rw [index_insert]; rfl
  · simp only [container.Len, ha, len_insert]
  · rw [TryGet_eq rfl hk]
    simp only [index_insert, toAny, hz]
  · rw [Get_eq rfl hk]
    simp only [index_insert, toAny, hz, Bool.false_eq_true, if_false]
  · intro d hd hno
    rw [TryGet_eq hd hk, Get_eq hd hk, index_of_has_false hno]
    simp only [hz, Bool.false_eq_true, if_false, and_self]

/-- Claim C15 at `Add[_tester](c, nil)` on the container that holds a
`_testerImpl` under the key of `_tester`. -/
theorem C15_nil_registered_reads_absent_witness :
    (withTester.ready ∧ name testEnv 2 tester = some (testPkg ++ "_tester") ∧
      tester.Kind testEnv = Kind.Interface) ∧
    (hasType testEnv tester (.iface none) = true ∧
    (∃ c1, Add testEnv 2 tester withTester (.iface none) = some (c1, .ret ()) ∧
      c1.m.has (testPkg ++ "_tester") = true ∧ c1.m.index (testPkg ++ "_tester") = none ∧
      (c1.Len = if withTester.m.has (testPkg ++ "_tester") = true then withTester.Len
        else withTester.Len + 1) ∧
      TryGet testEnv 2 tester c1 = some (c1, .ret (.iface none, false)) ∧
      Get testEnv 2 tester c1 =
        some (c1, .panic ("item not found of type [" ++ (testPkg ++ "_tester") ++ "]"))) ∧
    (∀ d : container, d.mu = false → d.m.has (testPkg ++ "_tester") = false →
      TryGet testEnv 2 tester d = some (d, .ret (.iface none, false)) ∧
      Get testEnv 2 tester d =
        some (d, .panic ("item not found of type [" ++ (testPkg ++ "_tester") ++ "]")))) :=
  ⟨by decide, C15_nil_registered_reads_absent testEnv 2 tester withTester
    (testPkg ++ "_tester") (by decide) (by decide) (by decide)⟩

/-- Claim C16 fails on the code at `Len`: `(*container).Len` reads `len(c.m)`
without taking the mutex, so on `New()` (and on every container whose mutex is
free) its one map access happens with the lock free. The seven other operations
compute what their plain definitions compute and touch the map only with the
mutex held. -/
theorem C16_len_reads_map_with_lock_free :
    (New.LenTraced = (0, [⟨MapOp.len, false⟩]) ∧
      (∀ c : container, c.LenTraced.1 = c.Len ∧ c.LenTraced.2 = [⟨MapOp.len, c.mu⟩])) ∧
    (∀ (env : TypeEnv) (fuel : Nat) (T O : Ty) (c : container) (e : Value),
      ((AddTraced env fuel T c e).1 = Add env fuel T c e ∧
        ∀ a ∈ (AddTraced env fuel T c e).2, a.held = true) ∧
      ((AddAsTraced env fuel T O c e).1 = AddAs env fuel T O c e ∧
        ∀ a ∈ (AddAsTraced env fuel T O c e).2, a.held = true) ∧
      ((GetTraced env fuel T c).1 = Get env fuel T c ∧
        ∀ a ∈ (GetTraced env fuel T c).2, a.held = true) ∧
      ((GetAsTraced env fuel T O c).1 = GetAs env fuel T O c ∧
        ∀ a ∈ (GetAsTraced env fuel T O c).2, a.held = true) ∧
      ((TryGetTraced env fuel T c).1 = TryGet env fuel T c ∧
        ∀ a ∈ (TryGetTraced env fuel T c).2, a.held = true) ∧
      ((TryGetAsTraced env fuel T O c).1 = TryGetAs env fuel T O c ∧
        ∀ a ∈ (TryGetAsTraced env fuel T O c).2, a.held = true) ∧
      ((RemoveTraced env fuel T c).1 = Remove env fuel T c ∧
        ∀ a ∈ (RemoveTraced env fuel T c).2, a.held = true)) := by
  refine ⟨⟨rfl, fun c => ⟨rfl, rfl⟩⟩, ?_⟩
  intro env fuel T O c e
  have hget : ∀ K : Ty, (GetAsTraced env fuel T K c).1 = GetAs env fuel T K c ∧
      ∀ a ∈ (GetAsTraced env fuel T K c).2, a.held = true := by
    intro K
    unfold GetAsTraced GetAs container.lock
    cases c.mu
    · cases name env fuel K with
      | none => simp
      | some k =>
        simp only [Bool.false_eq_true, if_false]
        rcases typeAssert env T (GoMap.index c.m k) with ⟨t, b⟩
        cases b <;> simp
    · simp
  have hadd : ∀ K : Ty, (AddAsTraced env fuel T K c e).1 = AddAs env fuel T K c e ∧
      ∀ a ∈ (AddAsTraced env fuel T K c e).2, a.held = true := by
    intro K
    unfold AddAsTraced AddAs container.lock
    cases c.mu
    · cases name env fuel K with
      | none => simp
      | some k =>
        simp only [Bool.false_eq_true, if_false]
        cases GoMap.assign c.m k (toAny T e) <;> simp
    · simp
  have htry : ∀ K : Ty, (TryGetAsTraced env fuel T K c).1 = TryGetAs env fuel T K c ∧
      ∀ a ∈ (TryGetAsTraced env fuel T K c).2, a.held = true := by
    intro K
    unfold TryGetAsTraced TryGetAs container.lock
    cases c.mu
    · cases name env fuel K <;> simp
    · simp
  refine ⟨hadd T, hadd O, hget T, hget O, htry T, htry O, ?_⟩
  unfold RemoveTraced Remove container.lock
  cases c.mu
  · cases name env fuel T <;> simp
  · simp

/-- The container an operation leaves, when it ends on a container whose mutex
is free, has its mutex free. -/
theorem step_mu_free {env : TypeEnv} {c c1 : container} (hmu : c.mu = false)
    (hs : Step env c c1) : c1.mu = false := by
  cases hs with
  | add fuel T e r h =>
    unfold Add container.lock at h
    rw [hmu] at h
    cases hk : name env fuel T with
    | none => simp [hk] at h
    | some k =>
      simp only [hk, Bool.false_eq_true, if_false] at h
      cases ha : GoMap.assign c.m k (toAny T e) with
      | ret m1 =>
        simp only [ha, Option.some.injEq, Prod.mk.injEq] at h
        rw [← h.1]; rfl
      | panic msg =>
        simp only [ha, Option.some.injEq, Prod.mk.injEq] at h
        rw [← h.1]; rfl
  | addAs fuel T O e r h =>
    unfold AddAs container.lock at h
    rw [hmu] at h
    cases hk : name env fuel O with
    | none => simp [hk] at h
    | some k =>
      simp only [hk, Bool.false_eq_true, if_false] at h
      cases ha : GoMap.assign c.m k (toAny T e) with
      | ret m1 =>
        simp only [ha, Option.some.injEq, Prod.mk.injEq] at h
        rw [← h.1]; rfl
      | panic msg =>
        simp only [ha, Option.some.injEq, Prod.mk.injEq] at h
        rw [← h.1]; rfl
  | get fuel T r h =>
    cases hk : name env fuel T with
    | none => simp [Get, container.lock, hmu, hk] at h
    | some k =>
      rw [Get_eq hmu hk] at h
      simp only [Option.some.injEq, Prod.mk.injEq] at h
      rw [← h.1]; exact hmu
  | getAs fuel T O r h =>
    cases hk : name env fuel O with
    | none => simp [GetAs, container.lock, hmu, hk] at h
    | some k =>
      rw [GetAs_eq T hmu hk] at h
      simp only [Option.some.injEq, Prod.mk.injEq] at h
      rw [← h.1]; exact hmu
  | tryGet fuel T r h =>
    cases hk : name env fuel T with
    | none => simp [TryGet, container.lock, hmu, hk] at h
    | some k =>
      rw [TryGet_eq hmu hk] at h
      simp only [Option.some.injEq, Prod.mk.injEq] at h
      rw [← h.1]; exact hmu
  | tryGetAs fuel T O r h =>
    cases hk : name env fuel O with
    | none => simp [TryGetAs, container.lock, hmu, hk] at h
    | some k =>
      rw [TryGetAs_eq T hmu hk] at h
      simp only [Option.some.injEq, Prod.mk.injEq] at h
      rw [← h.1]; exact hmu
  | remove fuel T r h =>
    cases hk : name env fuel T with
    | none => simp [Remove, container.lock, hmu, hk] at h
    | some k =>
      rw [Remove_eq hmu hk] at h
      simp only [Option.some.injEq, Prod.mk.injEq] at h
      rw [← h.1]

/-- The assignment of `Add` and `AddAs` ends on a container whose mutex is free,
by return or, on a nil map, by panic. -/
theorem Add_ends {env : TypeEnv} {fuel : Nat} {T : Ty} {c : container} {k : String}
    (e : Value) (hmu : c.mu = false) (hk : name env fuel T = some k) :
    ∃ c1 r, Add env fuel T c e = some (c1, r) := by
  cases hm : c.m with
  | none =>
    exact ⟨(⟨true, none⟩ : container).unlock, .panic "assignment to entry in nil map",
      by simp [Add, container.lock, hmu, hk, hm, GoMap.assign]⟩
  | some a => exact ⟨_, _, Add_eq e hmu hm hk⟩

theorem AddAs_ends {env : TypeEnv} {fuel : Nat} {O : Ty} {c : container} {k : String}
    (T : Ty) (e : Value) (hmu : c.mu = false) (hk : name env fuel O = some k) :
    ∃ c1 r, AddAs env fuel T O c e = some (c1, r) := by
  cases hm : c.m with
  | none =>
    exact ⟨(⟨true, none⟩ : container).unlock, .panic "assignment to entry in nil map",
      by simp [AddAs, container.lock, hmu, hk, hm, GoMap.assign]⟩
  | some a => exact ⟨_, _, AddAs_eq T e hmu hm hk⟩

/-- Claim C17: for every container `c` whose mutex is free, whenever `Add`,
`AddAs`, `Get`, `GetAs`, `TryGet`, `TryGetAs` or `Remove` ends on `c` (by return
or by panic) the mutex of the container it leaves is free; each of them does end
whenever its key derivation returns; and after a `Get` that panicked the mutex
can be taken again, so a further `Get` on the same container ends too. -/
theorem C17_lock_released_on_every_exit (env : TypeEnv) (c : container)
    (hmu : c.mu = false) :
    (∀ fuel T e c1 r, Add env fuel T c e = some (c1, r) → c1.mu = false) ∧
    (∀ fuel T O e c1 r, AddAs env fuel T O c e = some (c1, r) → c1.mu = false) ∧
    (∀ fuel T c1 r, Get env fuel T c = some (c1, r) → c1.mu = false) ∧
    (∀ fuel T O c1 r, GetAs env fuel T O c = some (c1, r) → c1.mu = false) ∧
    (∀ fuel T c1 r, TryGet env fuel T c = some (c1, r) → c1.mu = false) ∧
    (∀ fuel T O c1 r, TryGetAs env fuel T O c = some (c1, r) → c1.mu = false) ∧
    (∀ fuel T c1 r, Remove env fuel T c = some (c1, r) → c1.mu = false) ∧
    (∀ fuel T O e k, name env fuel O = some k →
      (∃ c1 r, Add env fuel O c e = some (c1, r)) ∧
      (∃ c1 r, AddAs env fuel T O c e = some (c1, r)) ∧
      (∃ c1 r, Get env fuel O c = some (c1, r)) ∧
      (∃ c1 r, GetAs env fuel T O c = some (c1, r)) ∧
      (∃ c1 r, TryGet env fuel O c = some (c1, r)) ∧
      (∃ c1 r, TryGetAs env fuel T O c = some (c1, r)) ∧
      (∃ c1 r, Remove env fuel O c = some (c1, r))) ∧
    (∀ fuel T c1 msg, Get env fuel T c = some (c1, .panic msg) →
      c1.mu = false ∧ c1.lock ≠ none ∧ ∃ r, Get env fuel T c1 = some (c1, r)) := by
  refine ⟨fun fuel T e c1 r h => step_mu_free hmu (Step.add fuel T e r h),
    fun fuel T O e c1 r h => step_mu_free hmu (Step.addAs fuel T O e r h),
    fun fuel T c1 r h => step_mu_free hmu (Step.get fuel T r h),
    fun fuel T O c1 r h => step_mu_free hmu (Step.getAs fuel T O r h),
    fun fuel T c1 r h => step_mu_free hmu (Step.tryGet fuel T r h),
    fun fuel T O c1 r h => step_mu_free hmu (Step.tryGetAs fuel T O r h),
    fun fuel T c1 r h => step_mu_free hmu (Step.remove fuel T r h), ?_, ?_⟩
  · intro fuel T O e k hk
    exact ⟨Add_ends e hmu hk, AddAs_ends T e hmu hk, ⟨_, _, Get_eq hmu hk⟩,
      ⟨_, _, GetAs_eq T hmu hk⟩, ⟨_, _, TryGet_eq hmu hk⟩, ⟨_, _, TryGetAs_eq T hmu hk⟩,
      ⟨_, _, Remove_eq hmu hk⟩⟩
  · intro fuel T c1 msg h
    have h1 : c1.mu = false := step_mu_free hmu (Step.get fuel T _ h)
    refine ⟨h1, ?_, ?_⟩
    · rw [(unlock_lock h1).1]; simp
    · cases hk : name env fuel T with
      | none => simp [Get, container.lock, hmu, hk] at h
      | some k => exact ⟨_, Get_eq h1 hk⟩

/-- Claim C17 at `New()`, where `Get[_tester]` ends by panic. -/
theorem C17_lock_released_on_every_exit_witness :
    New.mu = false ∧
    ((∀ fuel T e c1 r, Add testEnv fuel T New e = some (c1, r) → c1.mu = false) ∧
    (∀ fuel T O e c1 r, AddAs testEnv fuel T O New e = some (c1, r) → c1.mu = false) ∧
    (∀ fuel T c1 r, Get testEnv fuel T New = some (c1, r) → c1.mu = false) ∧
    (∀ fuel T O c1 r, GetAs testEnv fuel T O New = some (c1, r) → c1.mu = false) ∧
    (∀ fuel T c1 r, TryGet testEnv fuel T New = some (c1, r) → c1.mu = false) ∧
    (∀ fuel T O c1 r, TryGetAs testEnv fuel T O New = some (c1, r) → c1.mu = false) ∧
    (∀ fuel T c1 r, Remove testEnv fuel T New = some (c1, r) → c1.mu = false) ∧
    (∀ fuel T O e k, name testEnv fuel O = some k →
      (∃ c1 r, Add testEnv fuel O New e = some (c1, r)) ∧
      (∃ c1 r, AddAs testEnv fuel T O New e = some (c1, r)) ∧
      (∃ c1 r, Get testEnv fuel O New = some (c1, r)) ∧
      (∃ c1 r, GetAs testEnv fuel T O New = some (c1, r)) ∧
      (∃ c1 r, TryGet testEnv fuel O New = some (c1, r)) ∧
      (∃ c1 r, TryGetAs testEnv fuel T O New = some (c1, r)) ∧
      (∃ c1 r, Remove testEnv fuel O New = some (c1, r))) ∧
    (∀ fuel T c1 msg, Get testEnv fuel T New = some (c1, .panic msg) →
      c1.mu = false ∧ c1.lock ≠ none ∧ ∃ r, Get testEnv fuel T c1 = some (c1, r))) :=
  ⟨rfl, C17_lock_released_on_every_exit testEnv New rfl⟩

/-- Claim C18: on a container whose mutex is free, `Add[T]`, `AddAs[T,O]` and
`Remove[T]` end (given that their key derivation returns), and every key `k1`
other than the key the call derives (`name[T]()`, `name[O]()`, `name[T]()`) has
the same entry afterwards as before, in presence and in value, so a
`TryGetAs[U,P]` whose key `name[P]()` is `k1` gives the same result before and
after the call. -/
theorem C18_mutation_frame (env : TypeEnv) (c : container) (hmu : c.mu = false) :
    (∀ fuel T e k, name env fuel T = some k →
      ∃ c1 r, Add env fuel T c e = some (c1, r) ∧
      ∀ k1, k1 ≠ k → (c1.m.has k1 = c.m.has k1 ∧ c1.m.index k1 = c.m.index k1) ∧
        ∀ f U P, name env f P = some k1 →
          ∃ x, TryGetAs env f U P c = some (c, .ret x) ∧
            TryGetAs env f U P c1 = some (c1, .ret x)) ∧
    (∀ fuel T O e k, name env fuel O = some k →
      ∃ c1 r, AddAs env fuel T O c e = some (c1, r) ∧
      ∀ k1, k1 ≠ k → (c1.m.has k1 = c.m.has k1 ∧ c1.m.index k1 = c.m.index k1) ∧
        ∀ f U P, name env f P = some k1 →
          ∃ x, TryGetAs env f U P c = some (c, .ret x) ∧
            TryGetAs env f U P c1 = some (c1, .ret x)) ∧
    (∀ fuel T k, name env fuel T = some k →
      ∃ c1 r, Remove env fuel T c = some (c1, r) ∧
      ∀ k1, k1 ≠ k → (c1.m.has k1 = c.m.has k1 ∧ c1.m.index k1 = c.m.index k1) ∧
        ∀ f U P, name env f P = some k1 →
          ∃ x, TryGetAs env f U P c = some (c, .ret x) ∧
            TryGetAs env f U P c1 = some (c1, .ret x)) := by
  have frame : ∀ (c1 : container) (k1 : String), c1.mu = false →
      c1.m.has k1 = c.m.has k1 → c1.m.index k1 = c.m.index k1 →
      (c1.m.has k1 = c.m.has k1 ∧ c1.m.index k1 = c.m.index k1) ∧
        ∀ f U P, name env f P = some k1 →
          ∃ x, TryGetAs env f U P c = some (c, .ret x) ∧
            TryGetAs env f U P c1 = some (c1, .ret x) := by
    intro c1 k1 h1 hh hi
    refine ⟨⟨hh, hi⟩, fun f U P hP => ⟨_, TryGetAs_eq U hmu hP, ?_⟩⟩
    rw [TryGetAs_eq U h1 hP, hi]
  have hassign : ∀ (k : String) (x : Any) (c1 : container) (r : Outcome Unit),
      (match GoMap.assign c.m k x with
        | .panic msg => some ((⟨true, c.m⟩ : container).unlock, Outcome.panic msg)
        | .ret m1 => some ((⟨true, m1⟩ : container).unlock, Outcome.ret ())) = some (c1, r) →
      ∀ k1, k1 ≠ k → c1.mu = false ∧ c1.m.has k1 = c.m.has k1 ∧
        c1.m.index k1 = c.m.index k1 := by
    intro k x c1 r h k1 hne
    cases hm : c.m with
    | none =>
      simp only [hm, GoMap.assign, Option.some.injEq, Prod.mk.injEq] at h
      rw [← h.1]
      exact ⟨rfl, rfl, rfl⟩
    | some a =>
      simp only [hm, GoMap.assign, Option.some.injEq, Prod.mk.injEq] at h
      rw [← h.1]
      refine ⟨rfl, ?_, ?_⟩
      · simp [container.unlock, GoMap.has, AList.lookup_insert_ne hne]
      · exact index_insert_ne a x hne
  refine ⟨?_, ?_, ?_⟩
  · intro fuel T e k hk
    obtain ⟨c1, r, h⟩ := Add_ends e hmu hk
    refine ⟨c1, r, h, fun k1 hne => ?_⟩
    simp only [Add, container.lock, hmu, hk, Bool.false_eq_true, if_false] at h
    obtain ⟨h1, h2, h3⟩ := hassign k (toAny T e) c1 r h k1 hne
    exact frame c1 k1 h1 h2 h3
  · intro fuel T O e k hk
    obtain ⟨c1, r, h⟩ := AddAs_ends T e hmu hk
    refine ⟨c1, r, h, fun k1 hne => ?_⟩
    simp only [AddAs, container.lock, hmu, hk, Bool.false_eq_true, if_false] at h
    obtain ⟨h1, h2, h3⟩ := hassign k (toAny T e) c1 r h k1 hne
    exact frame c1 k1 h1 h2 h3
  · intro fuel T k hk
    refine ⟨_, _, Remove_eq hmu hk, fun k1 hne => ?_⟩
    refine frame _ k1 rfl ?_ ?_
    · cases hm : c.m with
      | none => rfl
      | some a => simp [GoMap.delete, GoMap.has, AList.lookup_erase_ne hne]
    · cases hm : c.m with
      | none => rfl
      | some a => simp [GoMap.delete, GoMap.index, AList.lookup_erase_ne hne]

/-- Claim C18 at the container that holds a `_testerImpl` under the key of
`_tester`. -/
theorem C18_mutation_frame_witness :
    withTester.mu = false ∧
    ((∀ fuel T e k, name testEnv fuel T = some k →
      ∃ c1 r, Add testEnv fuel T withTester e = some (c1, r) ∧
      ∀ k1, k1 ≠ k →
        (c1.m.has k1 = withTester.m.has k1 ∧ c1.m.index k1 = withTester.m.index k1) ∧
        ∀ f U P, name testEnv f P = some k1 →
          ∃ x, TryGetAs testEnv f U P withTester = some (withTester, .ret x) ∧
            TryGetAs testEnv f U P c1 = some (c1, .ret x)) ∧
    (∀ fuel T O e k, name testEnv fuel O = some k →
      ∃ c1 r, AddAs testEnv fuel T O withTester e = some (c1, r) ∧
      ∀ k1, k1 ≠ k →
        (c1.m.has k1 = withTester.m.has k1 ∧ c1.m.index k1 = withTester.m.index k1) ∧
        ∀ f U P, name testEnv f P = some k1 →
          ∃ x, TryGetAs testEnv f U P withTester = some (withTester, .ret x) ∧
            TryGetAs testEnv f U P c1 = some (c1, .ret x)) ∧
    (∀ fuel T k, name testEnv fuel T = some k →
      ∃ c1 r, Remove testEnv fuel T withTester = some (c1, r) ∧
      ∀ k1, k1 ≠ k →
        (c1.m.has k1 = withTester.m.has k1 ∧ c1.m.index k1 = withTester.m.index k1) ∧
        ∀ f U P, name testEnv f P = some k1 →
          ∃ x, TryGetAs testEnv f U P withTester = some (withTester, .ret x) ∧
            TryGetAs testEnv f U P c1 = some (c1, .ret x))) :=
  ⟨rfl, C18_mutation_frame testEnv withTester rfl⟩

/-- Claim C19: for every type `T` whose pointer-stripped type `s` is unnamed (a
slice, map, func, channel, array, struct or interface literal), package path and
name of `s` are empty and `name[T]()` is `""`; and on a fresh container
`Add[[]int](c, xs)` followed by `Add[[]string](c, ys)` leaves `Len(c) = 1`, with
`TryGet[[]string](c)` returning `(ys, true)` and `TryGet[[]int](c)` returning
`(nil, false)`. -/
theorem C19_unnamed_types_share_slot (env : TypeEnv) (fuel : Nat) (T s : Ty)
    (hs : stripPtr env fuel (Ty.ptr T) = some s) (hu : s.unnamed = true) :
    (s.PkgPath = "" ∧ s.Name = "" ∧ name env fuel T = some "") ∧
    (∀ xs ys : Nat, ∃ c1 c2,
      Add env 2 (.slice (.basic "int")) New (.data xs) = some (c1, .ret ()) ∧
      Add env 2 (.slice (.basic "string")) c1 (.data ys) = some (c2, .ret ()) ∧
      c2.Len = 1 ∧
      TryGet env 2 (.slice (.basic "string")) c2 = some (c2, .ret (.data ys, true)) ∧
      TryGet env 2 (.slice (.basic "int")) c2 =
        some (c2, .ret (zeroValue env (.slice (.basic "int")), false)) ∧
      zeroValue env (.slice (.basic "int")) = .data 0) := by
  have hempty : s.PkgPath = "" ∧ s.Name = "" := by
    cases s <;> first | exact ⟨rfl, rfl⟩ | simp [Ty.unnamed] at hu
  have hslice : ∀ E : Ty, name env 2 (.slice E) = some "" := fun E => by
    simp [name, stripPtr, Ty.Kind, Ty.literal, Ty.litKind, Ty.Elem, Ty.PkgPath, Ty.Name]
  have hkind : ∀ E : Ty, (Ty.slice E).Kind env ≠ Kind.Interface := fun E => by
    simp [Ty.Kind, Ty.literal, Ty.litKind]
  refine ⟨⟨hempty.1, hempty.2, ?_⟩, fun xs ys => ?_⟩
  · rw [name_of_stripPtr hs, hempty.1, hempty.2]
    rfl
  · refine ⟨_, _, Add_eq _ rfl rfl (hslice _), Add_eq _ rfl rfl (hslice _), ?_, ?_, ?_, ?_⟩
    · show GoMap.len _ = 1
      rw [len_insert_of_mem _ ((AList.mem_insert _).mpr (Or.inl rfl)),
        len_insert_of_not_mem _ (AList.not_mem_empty _)]
      rfl
    · rw [TryGet_eq rfl (hslice _)]
      simp only [index_insert]
      simp [toAny, typeAssert, hkind]
    · rw [TryGet_eq rfl (hslice _)]
      simp only [index_insert]
      simp [toAny, typeAssert, hkind]
    · simp [zeroValue, hkind]

/-- Claim C19 at `T = *map[string]any`. -/
theorem C19_unnamed_types_share_slot_witness :
    (stripPtr testEnv 3 (.ptr (.ptr (.map (.basic "string") (.iface [])))) =
        some (.map (.basic "string") (.iface [])) ∧
      (Ty.map (.basic "string") (.iface [])).unnamed = true) ∧
    (((Ty.map (.basic "string") (.iface [])).PkgPath = "" ∧
      (Ty.map (.basic "string") (.iface [])).Name = "" ∧
      name testEnv 3 (.ptr (.map (.basic "string") (.iface []))) = some "") ∧
    (∀ xs ys : Nat, ∃ c1 c2,
      Add testEnv 2 (.slice (.basic "int")) New (.data xs) = some (c1, .ret ()) ∧
      Add testEnv 2 (.slice (.basic "string")) c1 (.data ys) = some (c2, .ret ()) ∧
      c2.Len = 1 ∧
      TryGet testEnv 2 (.slice (.basic "string")) c2 = some (c2, .ret (.data ys, true)) ∧
      TryGet testEnv 2 (.slice (.basic "int")) c2 =
        some (c2, .ret (zeroValue testEnv (.slice (.basic "int")), false)) ∧
      zeroValue testEnv (.slice (.basic "int")) = .data 0)) :=
  ⟨by decide, C19_unnamed_types_share_slot testEnv 3
    (.ptr (.map (.basic "string") (.iface []))) (.map (.basic "string") (.iface []))
    (by decide) (by decide)⟩

/-- Claim C20 fails on the code at the type declared `type P *P`: it is of
pointer kind and its element type is itself, so the loop of `name[P]()` finds a
pointer kind at every step; for no amount of fuel does `name[P]()` return, and
`Add[P]`, `Get[P]` and `Remove[P]` on a fresh container do not return either
(they stay in the loop with the mutex held). -/
theorem C20_name_loops_on_self_pointer :
    selfPtr.Kind testEnv = Kind.Ptr ∧ selfPtr.Elem testEnv = selfPtr ∧
    ∀ fuel : Nat, name testEnv fuel selfPtr = none ∧
      Add testEnv fuel selfPtr New (.data 0) = none ∧
      Get testEnv fuel selfPtr New = none ∧
      Remove testEnv fuel selfPtr New = none := by
  refine ⟨by decide, by decide, fun fuel => ?_⟩
  have hn : name testEnv fuel selfPtr = none := by
    cases fuel with
    | zero => rfl
    | succ n =>
      have h : stripPtr testEnv (n + 1) (Ty.ptr selfPtr) = stripPtr testEnv n selfPtr := by
        simp [stripPtr, Ty.Kind, Ty.literal, Ty.litKind, Ty.Elem]
      simp only [name, h, stripPtr_selfPtr]
  refine ⟨hn, ?_, ?_, ?_⟩
  · simp [Add, container.lock, New, hn]
  · simp [Get, container.lock, New, hn]
  · simp [Remove, container.lock, New, hn]

end GenericsSet
